import Mathlib

/-!  Verification of the GRANDPA voter engine (`src/voter.rs`).

The development shallowly embeds the voter's data model and control flow.
Futures are modelled by explicit state passing; every external collaborator
(timers, the incoming vote stream, the underlying message sink, the vote
tally) is modelled by a finite script of poll outcomes, so that every
definition is executable and claims can be evaluated on concrete inputs.
An exhausted script behaves like a future that is forever pending. -/

namespace FGV

/-- Poll outcome of a unit future, `Sink::poll_complete`, or `Buffered::poll`
(Rust type `Poll<(), E>`). -/
inductive PollU (ε : Type) : Type
  | ready
  | notReady
  | err (e : ε)
deriving DecidableEq

/-- Outcome of `Sink::start_send`: `AsyncSink::Ready` (item accepted),
`AsyncSink::NotReady` (item handed back unchanged), or an error (the item is
consumed and lost, as in the Rust move semantics). -/
inductive SendR (ε : Type) : Type
  | ready
  | notReady
  | err (e : ε)
deriving DecidableEq

/-- Model of the underlying sink `E::Out`.  `accepted` is the list of items
the sink has accepted so far, in order; the two scripts dictate the outcome
of each successive `start_send` and `poll_complete` call. -/
structure ScriptSink (α ε : Type) : Type where
  accepted : List α
  sendScript : List (SendR ε)
  flushScript : List (PollU ε)
deriving DecidableEq

/-- One `start_send` call: consume the next send-script entry; on `ready` the
item is appended to `accepted`. -/
def ScriptSink.start_send (s : ScriptSink α ε) (item : α) : ScriptSink α ε × SendR ε :=
  match s.sendScript with
  | [] => (s, .notReady)
  | r :: rest =>
    match r with
    | .ready => ({ s with accepted := s.accepted ++ [item], sendScript := rest }, .ready)
    | .notReady => ({ s with sendScript := rest }, .notReady)
    | .err e => ({ s with sendScript := rest }, .err e)

/-- One `poll_complete` call: consume the next flush-script entry;
`ready` means the sink reports all accepted data flushed. -/
def ScriptSink.poll_complete (s : ScriptSink α ε) : ScriptSink α ε × PollU ε :=
  match s.flushScript with
  | [] => (s, .notReady)
  | r :: rest => ({ s with flushScript := rest }, r)

/-- `Buffered<S>` from `voter.rs`: an inner sink plus a FIFO buffer. -/
structure Buffered (α ε : Type) : Type where
  inner : ScriptSink α ε
  buffer : List α
deriving DecidableEq

/-- `Buffered::push`: append to the back of the internal queue; never fails. -/
def Buffered.push (b : Buffered α ε) (item : α) : Buffered α ε :=
  { b with buffer := b.buffer ++ [item] }

/-- The loop body of `Buffered::schedule_all`: pop the queue front and feed it
to `start_send`; continue on `Ready`, push the item back and stop on
`NotReady`, abort on error (the erroring item is lost). -/
def scheduleList (inner : ScriptSink α ε) :
    List α → ScriptSink α ε × List α × PollU ε
  | [] => (inner, [], .ready)
  | front :: rest =>
    match inner.start_send front with
    | (inner', .ready) => scheduleList inner' rest
    | (inner', .notReady) => (inner', front :: rest, .notReady)
    | (inner', .err e) => (inner', rest, .err e)

/-- `Buffered::schedule_all`: returns `ready` iff the buffer was emptied. -/
def Buffered.schedule_all (b : Buffered α ε) : Buffered α ε × PollU ε :=
  match scheduleList b.inner b.buffer with
  | (i, buf, r) => (⟨i, buf⟩, r)

/-- `Buffered::poll`: run `schedule_all` (propagating its error), then drive
`poll_complete`; ready only when both the buffer is drained and the inner
sink reports flushed. -/
def Buffered.poll (b : Buffered α ε) : Buffered α ε × PollU ε :=
  match b.schedule_all with
  | (b1, .err e) => (b1, .err e)
  | (b1, .ready) =>
    match b1.inner.poll_complete with
    | (i2, r2) => ({ b1 with inner := i2 }, r2)
  | (b1, .notReady) =>
    match b1.inner.poll_complete with
    | (i2, .err e) => ({ b1 with inner := i2 }, .err e)
    | (i2, _) => ({ b1 with inner := i2 }, .notReady)

/-! Basic lemmas about the buffered sink. -/

theorem scheduleList_ready_iff (inner : ScriptSink α ε) (l : List α) :
    (scheduleList inner l).2.2 = .ready ↔
      ((scheduleList inner l).2.1 = [] ∧ ∀ e : ε, (scheduleList inner l).2.2 ≠ .err e) := by
  induction l generalizing inner with
  | nil => simp [scheduleList]
  | cons front rest ih =>
    simp only [scheduleList]
    rcases h : inner.start_send front with ⟨inner', r⟩
    cases r with
    | ready => simpa using ih inner'
    | notReady => simp
    | err e =>
      simp only
      constructor
      · intro hc; cases hc
      · rintro ⟨-, hne⟩; exact absurd rfl (hne e)

/-- `start_send` appends the item to `accepted` when it answers `Ready`. -/
theorem start_send_ready_accepted (s : ScriptSink α ε) (a : α) :
    (s.start_send a).2 = SendR.ready → (s.start_send a).1.accepted = s.accepted ++ [a] := by
  simp only [ScriptSink.start_send]
  rcases s.sendScript with _ | ⟨r, rest⟩
  · simp
  · cases r <;> simp

theorem scheduleList_ready_accepted (inner : ScriptSink α ε) (l : List α) :
    (scheduleList inner l).2.2 = .ready →
      (scheduleList inner l).1.accepted = inner.accepted ++ l := by
  induction l generalizing inner with
  | nil => simp [scheduleList]
  | cons front rest ih =>
    simp only [scheduleList]
    rcases h : inner.start_send front with ⟨inner', r⟩
    cases r with
    | ready =>
      intro hr
      have hacc := start_send_ready_accepted inner front
      rw [h] at hacc
      simp only at hacc
      simp only at hr ⊢
      rw [ih inner' hr, hacc trivial, List.append_assoc]
      rfl
    | notReady => intro hc; cases hc
    | err e => intro hc; cases hc

/-- `poll_complete` does not change the accepted list. -/
theorem poll_complete_accepted (s : ScriptSink α ε) :
    (s.poll_complete).1.accepted = s.accepted := by
  simp only [ScriptSink.poll_complete]
  rcases s.flushScript with _ | ⟨r, rest⟩ <;> simp

/-- C5: for the buffered output sink, `poll()` returns ready if and only if
the internal queue was drained (`schedule_all` ready, i.e. the queue is empty
and no sink error occurred) and the underlying sink then reported fully
flushed; when it returns ready, every previously pushed message has been
delivered to the underlying sink in FIFO push order; sink errors from either
`start_send` or `poll_complete` are propagated verbatim. -/
theorem c5_buffered_poll_contract (α ε : Type) (b : Buffered α ε) :
    ((b.poll).2 = .ready ↔
      ((b.schedule_all).2 = .ready ∧
        ((b.schedule_all).1.inner.poll_complete).2 = .ready)) ∧
    ((b.schedule_all).2 = .ready ↔
      ((b.schedule_all).1.buffer = [] ∧ ∀ e : ε, (b.schedule_all).2 ≠ .err e)) ∧
    ((b.poll).2 = .ready →
      (b.poll).1.inner.accepted = b.inner.accepted ++ b.buffer) ∧
    (∀ e : ε, (b.schedule_all).2 = .err e → (b.poll).2 = .err e) ∧
    (∀ e : ε, (∀ e' : ε, (b.schedule_all).2 ≠ .err e') →
      ((b.schedule_all).1.inner.poll_complete).2 = .err e → (b.poll).2 = .err e) := by
  rcases hs : scheduleList b.inner b.buffer with ⟨i, buf, r⟩
  have hsa : b.schedule_all = (⟨i, buf⟩, r) := by
    simp [Buffered.schedule_all, hs]
  have hready := scheduleList_ready_iff b.inner b.buffer
  have hacc := scheduleList_ready_accepted b.inner b.buffer
  rw [hs] at hready hacc
  simp only at hready hacc
  simp only [Buffered.poll, hsa]
  rcases hp : ScriptSink.poll_complete i with ⟨i2, r2⟩
  have hpacc := poll_complete_accepted i
  rw [hp] at hpacc
  simp only at hpacc
  cases r with
  | ready =>
    simp only [hp]
    refine ⟨by simp, by simpa using hready, ?_, ?_, ?_⟩
    · intro h
      simpa [hpacc] using hacc rfl
    · intro e h; cases h
    · intro e h1 h2; exact h2
  | notReady =>
    simp only [hp]
    cases r2 with
    | ready =>
      refine ⟨by simp, by simpa using hready, ?_, ?_, ?_⟩
      · intro h; cases h
      · intro e h; cases h
      · intro e h1 h2; cases h2
    | notReady =>
      refine ⟨by simp, by simpa using hready, ?_, ?_, ?_⟩
      · intro h; cases h
      · intro e h; cases h
      · intro e h1 h2; cases h2
    | err e =>
      refine ⟨by simp, by simpa using hready, ?_, ?_, ?_⟩
      · intro h; cases h
      · intro e' h; cases h
      · intro e' h1 h2; exact h2
  | err e =>
    refine ⟨by simp, by simp, ?_, ?_, ?_⟩
    · intro h; cases h
    · intro e' h; exact h
    · intro e' h1 h2; exact absurd rfl (h1 e)

/-- Concrete buffered sink used to exercise `c5_buffered_poll_contract`. -/
def bufferedExample : Buffered Nat Unit :=
  { inner := { accepted := [], sendScript := [.ready, .ready], flushScript := [.ready] },
    buffer := [1, 2] }

/-- Witness for C5: on a concrete sink that accepts both queued items and
flushes, `poll` is ready and both messages reached the sink in order. -/
theorem c5_buffered_poll_contract_witness :
    (bufferedExample.poll).2 = .ready ∧
      (bufferedExample.poll).1.inner.accepted = [1, 2] := by
  refine ⟨by decide, ?_⟩
  exact (c5_buffered_poll_contract Nat Unit bufferedExample).2.2.1 (by decide)

/-! Data model: block references are pairs `(hash, height)`; heights are
`u32`, modelled as `Nat` (no arithmetic in the voter ever overflows a
counter, only comparisons and `saturating_sub` are used). -/

/-- `Prevote` message payload. -/
structure Prevote (H : Type) : Type where
  target_hash : H
  target_number : Nat
deriving DecidableEq

/-- `Precommit` message payload. -/
structure Precommit (H : Type) : Type where
  target_hash : H
  target_number : Nat
deriving DecidableEq

/-- `Message<H>`: an unsigned vote. -/
inductive Message (H : Type) : Type
  | prevote (p : Prevote H)
  | precommit (p : Precommit H)
deriving DecidableEq

/-- `SignedMessage`: a vote with signer id and signature (both opaque to the
engine; modelled as numbers). -/
structure SignedMessage (H : Type) : Type where
  message : Message H
  signature : Nat
  id : Nat
deriving DecidableEq

/-- `round::State<H>`: the tally's published snapshot. -/
structure RoundState (H : Type) : Type where
  prevote_ghost : Option (H × Nat)
  estimate : Option (H × Nat)
  finalized : Option (H × Nat)
  completable : Bool
deriving DecidableEq

instance [DecidableEq ε] [DecidableEq α] : DecidableEq (Except ε α) := fun x y =>
  match x, y with
  | .ok a, .ok b =>
    if h : a = b then isTrue (by rw [h]) else isFalse (by intro hh; cases hh; exact h rfl)
  | .error a, .error b =>
    if h : a = b then isTrue (by rw [h]) else isFalse (by intro hh; cases hh; exact h rfl)
  | .ok _, .error _ => isFalse (by intro hh; cases hh)
  | .error _, .ok _ => isFalse (by intro hh; cases hh)

/-- Modelled from the spec: the vote tally `Round` lives in `round.rs`, which
is not among the sources under review.  Per the spec (§1, §3, §6) it exposes a
round number, the `base` block, state snapshots, vote imports that may report
an equivocation or fail with an environment error, and a completability
predicate read off the snapshot.  Imports are modelled by a script of
outcomes: each import consumes one script entry dictating the new snapshot
and an optional equivocation (an opaque payload, modelled as `Nat`); an
exhausted script leaves the state unchanged. -/
structure Round (H ε : Type) : Type where
  round_number : Nat
  base : H × Nat
  curState : RoundState H
  script : List (Except ε (RoundState H × Option Nat))
deriving DecidableEq

/-- `Round::state()`. -/
def Round.state (r : Round H ε) : RoundState H := r.curState

/-- `Round::completable()`. -/
def Round.completable (r : Round H ε) : Bool := r.curState.completable

/-- Modelled from the spec: one vote import (`import_prevote` and
`import_precommit` behave identically at this level of abstraction), driven
by the script. -/
def Round.import_vote (r : Round H ε) : Except ε (Round H ε × Option Nat) :=
  match r.script with
  | [] => .ok (r, none)
  | .ok (st, q) :: rest => .ok ({ r with curState := st, script := rest }, q)
  | .error e :: _ => .error e

/-- Modelled from the spec: `Round::new` starts from an empty, incomplete
snapshot for the given round number and base block. -/
def Round.new (number : Nat) (base : H × Nat)
    (script : List (Except ε (RoundState H × Option Nat))) : Round H ε :=
  { round_number := number, base := base,
    curState := { prevote_ghost := none, estimate := none, finalized := none,
                  completable := false },
    script := script }

/-- Poll outcome of a timer future. -/
inductive TimerR (ε : Type) : Type
  | ready
  | notReady
  | err (e : ε)
deriving DecidableEq

/-- A timer (`E::Timer`) modelled as the script of its successive poll
outcomes; an exhausted script never fires. -/
abbrev Timer (ε : Type) : Type := List (TimerR ε)

/-- Poll a timer: consume the next script entry. -/
def Timer.poll : Timer ε → TimerR ε × Timer ε
  | [] => (.notReady, [])
  | r :: rest => (r, rest)

/-- Poll outcome of the incoming vote stream (`E::In`): a message
(`Ready(Some)`), end of stream (`Ready(None)`), `NotReady`, or an error. -/
inductive InR (H ε : Type) : Type
  | msg (m : SignedMessage H)
  | closed
  | pending
  | err (e : ε)
deriving DecidableEq

/-- Poll outcome of the round and voter futures; `panicked` models an
`expect` failure in the source. -/
inductive PollR (ε : Type) : Type
  | ready
  | notReady
  | err (e : ε)
  | panicked
deriving DecidableEq

/-- Result of a voting-round sub-step (`prevote` / `precommit`). -/
inductive StepR (ε : Type) : Type
  | ok
  | err (e : ε)
  | panicked
deriving DecidableEq

/-- The contents of `RoundData` handed out by `Environment::round_data`:
timers, the incoming stream, and behaviour scripts for the fresh outgoing
sink and the fresh tally.  (The voter weight map is not modelled: the engine
only forwards it into the tally, which is itself script-driven.) -/
structure RoundData (H ε : Type) : Type where
  prevote_timer : Timer ε
  precommit_timer : Timer ε
  incoming : List (InR H ε)
  sendScript : List (SendR ε)
  flushScript : List (PollU ε)
  tallyScript : List (Except ε (RoundState H × Option Nat))

/-- The pure face of the `Environment` trait: ancestry queries
(`Err` is `Error::NotDescendent`), best-chain lookup, and per-round data.
Side-effectful calls (`finalize_block`, `completed`, equivocation reports)
are modelled as emitted `Event`s. -/
structure Env (H ε : Type) : Type where
  ancestry : H → H → Except Unit (List H)
  best_chain_containing : H → Option (H × Nat)
  round_data : Nat → RoundData H ε

/-- Observable side effects of the engine.  `finalize`, `completed` and the
equivocation reports are the corresponding `Environment` calls; `dropped`
marks the removal of a background round from `past_rounds` (needed to state
retirement-ordering properties). -/
inductive Event (H : Type) : Type
  | finalize (h : H) (n : Nat)
  | completed (round : Nat) (st : RoundState H)
  | prevote_equivocation (round : Nat) (q : Nat)
  | precommit_equivocation (round : Nat) (q : Nat)
  | dropped (round : Nat) (estimate : Option (H × Nat))
deriving DecidableEq

/-- `voter::State<T>`: the per-round vote state machine, owning its timers. -/
inductive State (ε : Type) : Type
  | start (prevote_timer precommit_timer : Timer ε)
  | prevoted (precommit_timer : Timer ε)
  | precommitted
deriving DecidableEq

/-- `VotingRound<H, E>`.  The bridge handles are modelled at the `Voter`
level: `bridged_round_state` records whether a successor has bridged this
round (so `notify` knows whether to publish), and the `last_round_state`
reader is passed to `poll` as an argument by the owner. -/
structure VotingRound (H ε : Type) : Type where
  votes : Round H ε
  incoming : List (InR H ε)
  outgoing : Buffered (Message H) ε
  state : Option (State ε)
  bridged_round_state : Bool
  primary_block : Option (H × Nat)
deriving DecidableEq

/-- All messages ever pushed into the round's outgoing channel, in order:
those already accepted by the underlying sink followed by those still
buffered. -/
def VotingRound.emitted (vr : VotingRound H ε) : List (Message H) :=
  vr.outgoing.inner.accepted ++ vr.outgoing.buffer

/-- Effects produced by one poll of a voting round: environment calls
(equivocation reports), the bridge publication (`PriorView::update`) if any,
and the finalization notification (`finalized_sender`) if any. -/
structure VROut (H : Type) : Type where
  events : List (Event H)
  bridgeUpdate : Option (RoundState H)
  notification : Option (H × Nat)
deriving DecidableEq

/-- The incoming-drain loop at the top of `VotingRound::poll`: pull messages
while the stream is ready, importing each into the tally and collecting
equivocation reports; stop on `NotReady` or end-of-stream; an import or
stream error aborts the loop and is reported. -/
def drainLoop (votes : Round H ε) :
    List (InR H ε) → Round H ε × List (InR H ε) × List (Event H) × Option ε
  | [] => (votes, [], [], none)
  | .pending :: rest => (votes, rest, [], none)
  | .closed :: rest => (votes, rest, [], none)
  | .err e :: rest => (votes, rest, [], some e)
  | .msg m :: rest =>
    match votes.import_vote with
    | .error e => (votes, rest, [], some e)
    | .ok (votes', q) =>
      let evs :=
        match q, m.message with
        | some qq, .prevote _ => [Event.prevote_equivocation votes'.round_number qq]
        | some qq, .precommit _ => [Event.precommit_equivocation votes'.round_number qq]
        | none, _ => []
      match drainLoop votes' rest with
      | (v2, inc2, evs2, e2) => (v2, inc2, evs ++ evs2, e2)

/-- `VotingRound::notify`: if the state changed, publish it to a bridged
successor; additionally, when `finalized` changed, the new state is
completable and this round has already precommitted, send a finalization
notification. -/
def VotingRound.notify [DecidableEq H] (vr : VotingRound H ε)
    (last new : RoundState H) : Option (RoundState H) × Option (H × Nat) :=
  if last = new then (none, none)
  else
    let bu := if vr.bridged_round_state then some new else none
    let ntf :=
      if last.finalized ≠ new.finalized ∧ new.completable then
        match vr.state, new.finalized with
        | some State.precommitted, some f => some f
        | _, _ => none
      else none
    (bu, ntf)

/-- The anchor-block computation of `construct_prevote` (the block whose best
containing chain is voted for).  `panicked` models the two `expect`s on the
prior round's state. -/
def VotingRound.findDescendentOf [DecidableEq H] (env : Env H ε)
    (lrs : RoundState H) (vr : VotingRound H ε) : Option H :=
  match lrs.estimate with
  | none => none
  | some last_round_estimate =>
    match vr.primary_block with
    | none => some last_round_estimate.1
    | some primary_block =>
      match lrs.prevote_ghost with
      | none => none
      | some last_prevote_g =>
        if primary_block = last_prevote_g then some primary_block.1
        else if last_prevote_g.2 ≤ primary_block.2 then some last_round_estimate.1
        else
          match env.ancestry last_round_estimate.1 last_prevote_g.1 with
          | .ok ancestry =>
            let offset := last_prevote_g.2 - (primary_block.2 + 1)
            if ancestry.get? offset = some primary_block.1 then some primary_block.1
            else some last_round_estimate.1
          | .error _ => some last_round_estimate.1

/-- `VotingRound::construct_prevote`: compute the anchor, then ask the chain
for the best chain containing it; `ok none` is the skip-with-warning case
("previously known block has disappeared"); `none` (from the anchor
computation) models a panicking `expect` on the prior round state. -/
def VotingRound.construct_prevote [DecidableEq H] (env : Env H ε)
    (lrs : RoundState H) (vr : VotingRound H ε) : Option (Option (Prevote H)) :=
  match VotingRound.findDescendentOf env lrs vr with
  | none => none
  | some f =>
    match env.best_chain_containing f with
    | none => some none
    | some t => some (some { target_hash := t.1, target_number := t.2 })

/-- `VotingRound::construct_precommit`: target the current prevote-GHOST,
falling back to the round's base when it is absent. -/
def VotingRound.construct_precommit (vr : VotingRound H ε) : Precommit H :=
  let t :=
    match vr.votes.state.prevote_ghost with
    | some target => target
    | none => vr.votes.base
  { target_hash := t.1, target_number := t.2 }

/-- `VotingRound::prevote`: acts only in `Start`; `state` is `take`n, so an
early error return leaves it `None`.  Should-prevote is "prevote timer fired
or tally completable"; the constructed prevote (if any) is pushed and the
machine advances to `Prevoted`. -/
def VotingRound.prevote [DecidableEq H] (env : Env H ε) (lrs : RoundState H)
    (vr : VotingRound H ε) : VotingRound H ε × StepR ε :=
  match vr.state with
  | some (State.start prevote_timer precommit_timer) =>
    match Timer.poll prevote_timer with
    | (.err e, _) => ({ vr with state := none }, .err e)
    | (tr, prevote_timer') =>
      let should_prevote :=
        match tr with
        | .ready => true
        | _ => vr.votes.completable
      if should_prevote then
        match VotingRound.construct_prevote env lrs vr with
        | none => ({ vr with state := none }, .panicked)
        | some opt =>
          let vr' :=
            match opt with
            | some prevote => { vr with outgoing := vr.outgoing.push (.prevote prevote) }
            | none => vr
          ({ vr' with state := some (State.prevoted precommit_timer) }, .ok)
      else
        ({ vr with state := some (State.start prevote_timer' precommit_timer) }, .ok)
  | x => ({ vr with state := x }, .ok)

/-- The ancestry test inside the precommit guard: `Ok(_) => true`,
`Err(NotDescendent) => false`. -/
def ancestryOk (env : Env H ε) (base head : H) : Bool :=
  match env.ancestry base head with
  | .ok _ => true
  | .error _ => false

theorem ancestryOk_iff (env : Env H ε) (base head : H) :
    ancestryOk env base head = true ↔ ∃ l, env.ancestry base head = .ok l := by
  simp only [ancestryOk]
  rcases h : env.ancestry base head with u | l <;> simp

/-- `VotingRound::precommit`: acts only in `Prevoted`.  The prior round's
estimate must exist (`expect`, modelled as `panicked`).  Should-precommit is
"the prevote-GHOST exists and equals or descends from the prior estimate"
AND "precommit timer fired or tally completable"; note the short-circuit:
the timer is polled only when the first clause holds.  An early timer error
leaves the taken state `None`. -/
def VotingRound.precommit [DecidableEq H] (env : Env H ε) (lrs : RoundState H)
    (vr : VotingRound H ε) : VotingRound H ε × StepR ε :=
  match vr.state with
  | some (State.prevoted precommit_timer) =>
    match lrs.estimate with
    | none => ({ vr with state := none }, .panicked)
    | some last_round_estimate =>
      let may_precommit :=
        match vr.votes.state.prevote_ghost with
        | none => false
        | some p_g =>
          decide (p_g = last_round_estimate) ||
            ancestryOk env last_round_estimate.1 p_g.1
      if may_precommit then
        match Timer.poll precommit_timer with
        | (.err e, _) => ({ vr with state := none }, .err e)
        | (tr, precommit_timer') =>
          let should_precommit :=
            match tr with
            | .ready => true
            | _ => vr.votes.completable
          if should_precommit then
            let precommit := VotingRound.construct_precommit vr
            ({ vr with outgoing := vr.outgoing.push (.precommit precommit),
                       state := some State.precommitted }, .ok)
          else
            ({ vr with state := some (State.prevoted precommit_timer') }, .ok)
      else
        ({ vr with state := some (State.prevoted precommit_timer) }, .ok)
  | x => ({ vr with state := x }, .ok)

/-- The error-free core of `VotingRound::poll`: drain the incoming stream
into the tally, notify, then run the prevote and precommit steps. -/
def VotingRound.pollCore [DecidableEq H] (env : Env H ε) (lrs : RoundState H)
    (vr : VotingRound H ε) : VotingRound H ε × VROut H × StepR ε :=
  let pre_state := vr.votes.state
  match drainLoop vr.votes vr.incoming with
  | (votes', incoming', evs, errOpt) =>
    let vr1 : VotingRound H ε := { vr with votes := votes', incoming := incoming' }
    match errOpt with
    | some e => (vr1, { events := evs, bridgeUpdate := none, notification := none }, .err e)
    | none =>
      let post_state := vr1.votes.state
      let nt := VotingRound.notify vr1 pre_state post_state
      let out : VROut H := { events := evs, bridgeUpdate := nt.1, notification := nt.2 }
      match VotingRound.prevote env lrs vr1 with
      | (vr2, .err e) => (vr2, out, .err e)
      | (vr2, .panicked) => (vr2, out, .panicked)
      | (vr2, .ok) =>
        match VotingRound.precommit env lrs vr2 with
        | (vr3, .err e) => (vr3, out, .err e)
        | (vr3, .panicked) => (vr3, out, .panicked)
        | (vr3, .ok) => (vr3, out, .ok)

/-- `VotingRound::poll`: run the core, then drive the buffered sink
(`try_ready!`), and report ready iff the tally is completable. -/
def VotingRound.poll [DecidableEq H] (env : Env H ε) (lrs : RoundState H)
    (vr : VotingRound H ε) : VotingRound H ε × VROut H × PollR ε :=
  match VotingRound.pollCore env lrs vr with
  | (vr3, out, .err e) => (vr3, out, .err e)
  | (vr3, out, .panicked) => (vr3, out, .panicked)
  | (vr3, out, .ok) =>
    match vr3.outgoing.poll with
    | (og, .err e) => ({ vr3 with outgoing := og }, out, .err e)
    | (og, .notReady) => ({ vr3 with outgoing := og }, out, .notReady)
    | (og, .ready) =>
      ({ vr3 with outgoing := og }, out,
        if vr3.votes.completable then .ready else .notReady)

/-- `BackgroundRound`: a voting round kept alive until its estimate is
finalized.  The task waker is a scheduling artifact and is not modelled: the
owning `Voter` polls every background round on each prune. -/
structure BackgroundRound (H ε : Type) : Type where
  inner : VotingRound H ε
  finalized_number : Nat
deriving DecidableEq

/-- `BackgroundRound::is_done`: the estimate exists and its height is at most
the last finalized height this round has been told about. -/
def BackgroundRound.is_done (bg : BackgroundRound H ε) : Bool :=
  match bg.inner.votes.state.estimate with
  | some x => decide (x.2 ≤ bg.finalized_number)
  | none => false

/-- `BackgroundRound::update_finalized`: raise the stored finalized height. -/
def BackgroundRound.update_finalized (bg : BackgroundRound H ε) (new_finalized : Nat) :
    BackgroundRound H ε :=
  { bg with finalized_number := max bg.finalized_number new_finalized }

/-- `BackgroundRound::poll` (`Future` impl): poll the inner round
(propagating errors, ignoring its readiness), then resolve iff `is_done`. -/
def BackgroundRound.poll [DecidableEq H] (env : Env H ε) (lrs : RoundState H)
    (bg : BackgroundRound H ε) : BackgroundRound H ε × VROut H × PollR ε :=
  match VotingRound.poll env lrs bg.inner with
  | (vr', out, r) =>
    let bg' : BackgroundRound H ε := { bg with inner := vr' }
    match r with
    | .err e => (bg', out, .err e)
    | .panicked => (bg', out, .panicked)
    | _ => (bg', out, if bg'.is_done then .ready else .notReady)

/-- `Voter<H, E>`.  `notifications` is the content of the unbounded
finalization channel; `cells` are the bridge cells, keyed by round number
(the reader of round `n` looks up cell `n - 1`; pushed entries shadow older
ones). -/
structure Voter (H ε : Type) : Type where
  best_round : VotingRound H ε
  past_rounds : List (BackgroundRound H ε)
  notifications : List (H × Nat)
  last_finalized : H × Nat
  cells : List (Nat × RoundState H)
deriving DecidableEq

/-- Read a bridge cell; the engine's construction guarantees the cell
exists, so the default is never reached in a run started from `Voter.new`. -/
def lookupCell (cells : List (Nat × RoundState H)) (n : Nat) : RoundState H :=
  match cells.lookup n with
  | some st => st
  | none => { prevote_ghost := none, estimate := none, finalized := none,
              completable := false }

/-- The voting-round construction shared by `Voter::new` and the rotation in
`Voter::poll`: fresh tally at the given base, fresh empty outgoing buffer,
state `Start` with the two timers, no bridge reader yet, no primary hint. -/
def mkVotingRound (number : Nat) (base : H × Nat) (rd : RoundData H ε) :
    VotingRound H ε :=
  { votes := Round.new number base rd.tallyScript,
    incoming := rd.incoming,
    outgoing := { inner := { accepted := [], sendScript := rd.sendScript,
                             flushScript := rd.flushScript },
                  buffer := [] },
    state := some (State.start rd.prevote_timer rd.precommit_timer),
    bridged_round_state := false,
    primary_block := none }

/-- `Voter::new`: start round `last_round + 1` based at `last_finalized`,
seeding bridge cell `last_round` with the provided prior state (the writer
half is discarded, so that cell never changes). -/
def Voter.new (env : Env H ε) (last_round : Nat) (last_round_state : RoundState H)
    (last_finalized : H × Nat) : Voter H ε :=
  { best_round := mkVotingRound (last_round + 1) last_finalized
      (env.round_data (last_round + 1)),
    past_rounds := [],
    notifications := [],
    last_finalized := last_finalized,
    cells := [(last_round, last_round_state)] }

/-- The notification-drain loop of `Voter::prune_background`: for each queued
`(hash, height)`, raise every background round's finalized number, and when
the height strictly exceeds `last_finalized`, update it and call
`finalize_block`. -/
def drainNotifications (past : List (BackgroundRound H ε)) (lf : H × Nat) :
    List (H × Nat) → List (BackgroundRound H ε) × (H × Nat) × List (Event H)
  | [] => (past, lf, [])
  | (f_hash, f_num) :: rest =>
    let past' := past.map (fun bg => bg.update_finalized f_num)
    if lf.2 < f_num then
      match drainNotifications past' (f_hash, f_num) rest with
      | (p2, lf2, evs) => (p2, lf2, Event.finalize f_hash f_num :: evs)
    else
      drainNotifications past' lf rest

/-- The pump loop of `Voter::prune_background` (`past_rounds.poll()`): poll
each background round once; resolved rounds are dropped from the set, an
erroring round is dropped and its error propagated. -/
def pumpRounds [DecidableEq H] (env : Env H ε) :
    List (BackgroundRound H ε) → List (Nat × RoundState H) →
      List (BackgroundRound H ε) × List (Nat × RoundState H) ×
        List (H × Nat) × List (Event H) × StepR ε
  | [], cells => ([], cells, [], [], .ok)
  | bg :: rest, cells =>
    let lrs := lookupCell cells (bg.inner.votes.round_number - 1)
    match BackgroundRound.poll env lrs bg with
    | (bg', out, r) =>
      let cells' :=
        match out.bridgeUpdate with
        | some st => (bg'.inner.votes.round_number, st) :: cells
        | none => cells
      match r with
      | .err e => (rest, cells', out.notification.toList, out.events, .err e)
      | .panicked => (rest, cells', out.notification.toList, out.events, .panicked)
      | .ready =>
        match pumpRounds env rest cells' with
        | (rs, cs, ns, es, st) =>
          (rs, cs, out.notification.toList ++ ns,
            out.events ++
              Event.dropped bg'.inner.votes.round_number bg'.inner.votes.state.estimate ::
                es,
            st)
      | .notReady =>
        match pumpRounds env rest cells' with
        | (rs, cs, ns, es, st) =>
          (bg' :: rs, cs, out.notification.toList ++ ns, out.events ++ es, st)

/-- `Voter::prune_background`: drain the finalization channel, then pump the
background set. -/
def Voter.prune_background [DecidableEq H] (env : Env H ε) (v : Voter H ε) :
    Voter H ε × List (Event H) × StepR ε :=
  match drainNotifications v.past_rounds v.last_finalized v.notifications with
  | (past1, lf1, evs1) =>
    match pumpRounds env past1 v.cells with
    | (past2, cells2, ntfs2, evs2, r) =>
      ({ v with past_rounds := past2, last_finalized := lf1,
                notifications := ntfs2, cells := cells2 },
        evs1 ++ evs2, r)

/-- `Voter::poll` (`Future` impl): prune, poll the best round, and when it is
ready and precommitted, rotate — notify `completed`, bridge the old round,
move it to the background set, instantiate the successor at the current
`last_finalized`, and re-poll immediately.  The re-poll recursion is bounded
by `fuel` in the model; when fuel runs out the poll reports `notReady`
without re-entering (every claim is proved for all fuel). -/
def Voter.poll [DecidableEq H] (env : Env H ε) (fuel : Nat) (v : Voter H ε) :
    Voter H ε × List (Event H) × PollR ε :=
  match Voter.prune_background env v with
  | (v1, evs, .err e) => (v1, evs, .err e)
  | (v1, evs, .panicked) => (v1, evs, .panicked)
  | (v1, evs, _) =>
    let lrs := lookupCell v1.cells (v1.best_round.votes.round_number - 1)
    match VotingRound.poll env lrs v1.best_round with
    | (br', out, r) =>
      let cells' :=
        match out.bridgeUpdate with
        | some st => (br'.votes.round_number, st) :: v1.cells
        | none => v1.cells
      let v2 : Voter H ε :=
        { v1 with best_round := br', cells := cells',
                  notifications := v1.notifications ++ out.notification.toList }
      let evsB := evs ++ out.events
      match r with
      | .err e => (v2, evsB, .err e)
      | .panicked => (v2, evsB, .panicked)
      | .notReady => (v2, evsB, .notReady)
      | .ready =>
        match v2.best_round.state with
        | some State.precommitted =>
          let completedEv := Event.completed br'.votes.round_number br'.votes.state
          let next_number := br'.votes.round_number + 1
          let rd := env.round_data next_number
          let old : VotingRound H ε := { br' with bridged_round_state := true }
          let cells2 := (old.votes.round_number, old.votes.state) :: v2.cells
          let next := mkVotingRound next_number v2.last_finalized rd
          let v3 : Voter H ε :=
            { v2 with best_round := next, cells := cells2,
                      past_rounds := v2.past_rounds ++ [⟨old, 0⟩] }
          match fuel with
          | 0 => (v3, evsB ++ [completedEv], .notReady)
          | fuel' + 1 =>
            match Voter.poll env fuel' v3 with
            | (v4, evs4, r4) => (v4, evsB ++ completedEv :: evs4, r4)
        | _ => (v2, evsB, .notReady)

/-- Repeatedly poll the voter (the external executor), collecting events;
stop on error or panic. -/
def Voter.run [DecidableEq H] (env : Env H ε) (fuel : Nat) :
    Nat → Voter H ε → Voter H ε × List (Event H)
  | 0, v => (v, [])
  | n + 1, v =>
    match Voter.poll env fuel v with
    | (v1, evs, .err _) => (v1, evs)
    | (v1, evs, .panicked) => (v1, evs)
    | (v1, evs, _) =>
      match Voter.run env fuel n v1 with
      | (v2, evs2) => (v2, evs ++ evs2)

/-- The heights handed to `finalize_block`, in order of invocation. -/
def finalizeHeights (evs : List (Event H)) : List Nat :=
  evs.filterMap fun e =>
    match e with
    | .finalize _ n => some n
    | _ => none

/-! Claim C3 and C8: properties of the precommit step. -/

/-- C3: the precommit step never pushes a `Precommit` unless the previous
round's estimate exists and is equal to, or an ancestor of, the current
tally's prevote-GHOST — in particular, never while the prevote-GHOST is
absent. -/
theorem c3_precommit_requires_guard [DecidableEq H] (env : Env H ε)
    (lrs : RoundState H) (vr : VotingRound H ε)
    (h : (VotingRound.precommit env lrs vr).1.emitted ≠ vr.emitted) :
    ∃ g lre, vr.votes.state.prevote_ghost = some g ∧ lrs.estimate = some lre ∧
      (g = lre ∨ ∃ l, env.ancestry lre.1 g.1 = .ok l) := by
  rcases hst : vr.state with _ | st
  · simp only [VotingRound.precommit, hst] at h
    exact absurd rfl h
  cases st with
  | start p c =>
    simp only [VotingRound.precommit, hst] at h
    exact absurd rfl h
  | precommitted =>
    simp only [VotingRound.precommit, hst] at h
    exact absurd rfl h
  | prevoted c =>
    simp only [VotingRound.precommit, hst] at h
    rcases hest : lrs.estimate with _ | lre <;> simp only [hest] at h
    · simp [VotingRound.emitted] at h
    rcases hg : vr.votes.state.prevote_ghost with _ | p_g <;> simp only [hg] at h
    · simp [VotingRound.emitted] at h
    by_cases hmay : (decide (p_g = lre) || ancestryOk env lre.1 p_g.1) = true
    · refine ⟨p_g, lre, rfl, rfl, ?_⟩
      have hmay' := hmay
      rw [Bool.or_eq_true] at hmay'
      rcases hmay' with hd | ha
      · exact Or.inl (of_decide_eq_true hd)
      · exact Or.inr ((ancestryOk_iff env lre.1 p_g.1).1 ha)
    · rw [if_neg hmay] at h
      exact absurd rfl h

/-- Witness for C3: a concrete round in `Prevoted` whose precommit step does
push a message satisfies the guard. -/
def envSimple : Env Nat Unit :=
  { ancestry := fun _ _ => .ok [],
    best_chain_containing := fun h => some (h, h),
    round_data := fun _ =>
      { prevote_timer := [], precommit_timer := [], incoming := [],
        sendScript := [], flushScript := [], tallyScript := [] } }

/-- A concrete round in state `Prevoted` with a prevote-GHOST at `(7, 4)`,
whose precommit timer fires at once. -/
def vrPrevoted : VotingRound Nat Unit :=
  { votes :=
      { round_number := 2, base := (1, 1),
        curState := { prevote_ghost := some (7, 4), estimate := some (7, 4),
                      finalized := none, completable := true },
        script := [] },
    incoming := [],
    outgoing := { inner := { accepted := [], sendScript := [.ready],
                             flushScript := [.ready] },
                  buffer := [] },
    state := some (State.prevoted [TimerR.ready]),
    bridged_round_state := false,
    primary_block := none }

/-- The prior-round state seen by `vrPrevoted`: estimate `(5, 2)`. -/
def lrsSimple : RoundState Nat :=
  { prevote_ghost := some (5, 2), estimate := some (5, 2), finalized := none,
    completable := true }

theorem c3_precommit_requires_guard_witness :
    ∃ g lre, vrPrevoted.votes.state.prevote_ghost = some g ∧
      lrsSimple.estimate = some lre ∧
      (g = lre ∨ ∃ l, envSimple.ancestry lre.1 g.1 = .ok l) :=
  c3_precommit_requires_guard envSimple lrsSimple vrPrevoted (by decide)

/-- C8: whenever the precommit step pushes a `Precommit`, the tally's
prevote-GHOST is present at that moment and the precommit targets exactly
it, so the fall-back to the round's base inside `construct_precommit` is
unreachable from the precommit step. -/
theorem c8_precommit_targets_ghost [DecidableEq H] (env : Env H ε)
    (lrs : RoundState H) (vr : VotingRound H ε)
    (h : (VotingRound.precommit env lrs vr).1.emitted ≠ vr.emitted) :
    ∃ g, vr.votes.state.prevote_ghost = some g ∧
      VotingRound.construct_precommit vr =
        { target_hash := g.1, target_number := g.2 } ∧
      (VotingRound.precommit env lrs vr).1.emitted =
        vr.emitted ++ [Message.precommit { target_hash := g.1, target_number := g.2 }] := by
  rcases hst : vr.state with _ | st
  · simp only [VotingRound.precommit, hst] at h
    exact absurd rfl h
  cases st with
  | start p c =>
    simp only [VotingRound.precommit, hst] at h
    exact absurd rfl h
  | precommitted =>
    simp only [VotingRound.precommit, hst] at h
    exact absurd rfl h
  | prevoted c =>
    simp only [VotingRound.precommit, hst] at h ⊢
    rcases hest : lrs.estimate with _ | lre <;> simp only [hest] at h ⊢
    · simp [VotingRound.emitted] at h
    rcases hg : vr.votes.state.prevote_ghost with _ | p_g <;> simp only [hg] at h ⊢
    · simp [VotingRound.emitted] at h
    refine ⟨p_g, rfl, by simp [VotingRound.construct_precommit, hg], ?_⟩
    by_cases hmay : (decide (p_g = lre) || ancestryOk env lre.1 p_g.1) = true
    · rw [if_pos hmay] at h ⊢
      rcases ht : Timer.poll c with ⟨tr, c'⟩
      simp only [ht] at h ⊢
      cases tr with
      | err e => simp [VotingRound.emitted] at h
      | ready =>
        simp [VotingRound.emitted, VotingRound.construct_precommit, hg,
          Buffered.push, List.append_assoc]
      | notReady =>
        rcases hc : vr.votes.completable with _ | _ <;> simp only [hc] at h ⊢
        · simp [VotingRound.emitted] at h
        · simp [VotingRound.emitted, VotingRound.construct_precommit, hg,
            Buffered.push, List.append_assoc]
    · rw [if_neg hmay] at h
      exact absurd rfl h

theorem c8_precommit_targets_ghost_witness :
    ∃ g, vrPrevoted.votes.state.prevote_ghost = some g ∧
      VotingRound.construct_precommit vrPrevoted =
        { target_hash := g.1, target_number := g.2 } ∧
      (VotingRound.precommit envSimple lrsSimple vrPrevoted).1.emitted =
        vrPrevoted.emitted ++
          [Message.precommit { target_hash := g.1, target_number := g.2 }] :=
  c8_precommit_targets_ghost envSimple lrsSimple vrPrevoted (by decide)

/-! Counting prevotes and precommits among emitted messages. -/

/-- Test for a `Prevote` message. -/
def isPrevoteMsg : Message H → Bool
  | .prevote _ => true
  | .precommit _ => false

/-- Test for a `Precommit` message. -/
def isPrecommitMsg : Message H → Bool
  | .prevote _ => false
  | .precommit _ => true

/-- Iterated polling of a single voting round, with an arbitrary sequence of
prior-round snapshots supplied by the owner. -/
def pollIter [DecidableEq H] (env : Env H ε) (lrsSeq : Nat → RoundState H) :
    Nat → VotingRound H ε → VotingRound H ε
  | 0, vr => vr
  | n + 1, vr => pollIter env lrsSeq n (VotingRound.poll env (lrsSeq n) vr).1

theorem start_send_accepted_of_ne (s : ScriptSink α ε) (a : α) :
    (s.start_send a).2 ≠ SendR.ready → (s.start_send a).1.accepted = s.accepted := by
  simp only [ScriptSink.start_send]
  rcases s.sendScript with _ | ⟨r, rest⟩
  · simp
  · cases r <;> simp

/-- `schedule_all` never increases the number of messages satisfying a
predicate among "accepted then still-buffered" (it moves them, or drops one
on a sink error). -/
theorem scheduleList_countP (q : α → Bool) (inner : ScriptSink α ε) (l : List α) :
    ((scheduleList inner l).1.accepted ++ (scheduleList inner l).2.1).countP q ≤
      (inner.accepted ++ l).countP q := by
  induction l generalizing inner with
  | nil => simp [scheduleList]
  | cons front rest ih =>
    simp only [scheduleList]
    rcases hs : inner.start_send front with ⟨inner', r⟩
    cases r with
    | ready =>
      have hacc := start_send_ready_accepted inner front
      rw [hs] at hacc
      simp only at hacc ⊢
      calc ((scheduleList inner' rest).1.accepted ++
              (scheduleList inner' rest).2.1).countP q
          ≤ (inner'.accepted ++ rest).countP q := ih inner'
        _ = (inner.accepted ++ front :: rest).countP q := by
            rw [hacc trivial, List.append_assoc]
            rfl
    | notReady =>
      have hacc := start_send_accepted_of_ne inner front
      rw [hs] at hacc
      simp only at hacc ⊢
      rw [hacc (by simp)]
    | err e =>
      have hacc := start_send_accepted_of_ne inner front
      rw [hs] at hacc
      simp only at hacc ⊢
      rw [hacc (by simp)]
      simp only [List.countP_append, List.countP_cons]
      exact Nat.add_le_add_left (Nat.le_add_right _ _) _

/-- `Buffered::poll` never increases any message count. -/
theorem buffered_poll_countP (q : α → Bool) (b : Buffered α ε) :
    ((b.poll).1.inner.accepted ++ (b.poll).1.buffer).countP q ≤
      (b.inner.accepted ++ b.buffer).countP q := by
  rcases hs : scheduleList b.inner b.buffer with ⟨i, buf, r⟩
  have h := scheduleList_countP q b.inner b.buffer
  rw [hs] at h
  simp only at h
  have hsa : b.schedule_all = (⟨i, buf⟩, r) := by simp [Buffered.schedule_all, hs]
  simp only [Buffered.poll, hsa]
  cases r with
  | err e => exact h
  | ready =>
    rcases hp : ScriptSink.poll_complete i with ⟨i2, r2⟩
    simp only [hp]
    have hpa := poll_complete_accepted i
    rw [hp] at hpa
    simp only at hpa
    exact hpa.symm ▸ h
  | notReady =>
    rcases hp : ScriptSink.poll_complete i with ⟨i2, r2⟩
    simp only [hp]
    have hpa := poll_complete_accepted i
    rw [hp] at hpa
    simp only at hpa
    cases r2 <;> exact hpa.symm ▸ h

/-- `push` appends the message to the end of the emission log. -/
theorem buffered_push_emitted (b : Buffered α ε) (m : α) :
    (b.push m).inner.accepted ++ (b.push m).buffer =
      (b.inner.accepted ++ b.buffer) ++ [m] := by
  simp [Buffered.push]

/-- C6: when the prevote step fires (timer ready, or tally completable while
the timer pends) but the chain cannot locate a best chain containing the
computed anchor, the step succeeds without error, pushes nothing (the
outgoing channel is untouched), and still advances the state machine to
`Prevoted`. -/
theorem c6_missing_best_chain_skips_prevote [DecidableEq H] (env : Env H ε)
    (lrs : RoundState H) (vr : VotingRound H ε) (p c : Timer ε) (a : H)
    (hst : vr.state = some (State.start p c))
    (hfire : (Timer.poll p).1 = .ready ∨
      ((Timer.poll p).1 = .notReady ∧ vr.votes.completable = true))
    (hfd : VotingRound.findDescendentOf env lrs vr = some a)
    (hbc : env.best_chain_containing a = none) :
    VotingRound.prevote env lrs vr =
      ({ vr with state := some (State.prevoted c) }, .ok) := by
  simp only [VotingRound.prevote, hst]
  rcases ht : Timer.poll p with ⟨tr, p'⟩
  rw [ht] at hfire
  simp only at hfire
  cases tr with
  | err e => simp at hfire
  | ready =>
    simp only [VotingRound.construct_prevote, hfd, hbc, if_pos]
  | notReady =>
    rcases hfire with hfire | ⟨-, hc⟩
    · cases hfire
    · simp only [hc, if_pos]
      simp only [VotingRound.construct_prevote, hfd, hbc]

/-- Environment whose chain lookup finds nothing. -/
def envNoChain : Env Nat Unit :=
  { ancestry := fun _ _ => .ok [],
    best_chain_containing := fun _ => none,
    round_data := fun _ =>
      { prevote_timer := [], precommit_timer := [], incoming := [],
        sendScript := [], flushScript := [], tallyScript := [] } }

/-- A concrete round in state `Start` whose prevote timer fires at once. -/
def vrStart : VotingRound Nat Unit :=
  { votes :=
      { round_number := 2, base := (1, 1),
        curState := { prevote_ghost := none, estimate := none,
                      finalized := none, completable := false },
        script := [] },
    incoming := [],
    outgoing := { inner := { accepted := [], sendScript := [.ready],
                             flushScript := [.ready] },
                  buffer := [] },
    state := some (State.start [TimerR.ready] [TimerR.ready]),
    bridged_round_state := false,
    primary_block := none }

theorem c6_missing_best_chain_skips_prevote_witness :
    VotingRound.prevote envNoChain lrsSimple vrStart =
      ({ vrStart with state := some (State.prevoted [TimerR.ready]) }, .ok) :=
  c6_missing_best_chain_skips_prevote envNoChain lrsSimple vrStart
    [TimerR.ready] [TimerR.ready] 5 (by decide) (Or.inl (by decide))
    (by decide) (by decide)

/-! Claim C10: a timer error empties the taken state for good. -/

/-- With an empty state, the prevote step is the identity on everything but
the (eta-expanded) state. -/
theorem prevote_none [DecidableEq H] (env : Env H ε) (lrs : RoundState H)
    (vr : VotingRound H ε) (hst : vr.state = none) :
    VotingRound.prevote env lrs vr = ({ vr with state := none }, .ok) := by
  simp [VotingRound.prevote, hst]

/-- With an empty state, the precommit step is the identity on everything but
the (eta-expanded) state. -/
theorem precommit_none [DecidableEq H] (env : Env H ε) (lrs : RoundState H)
    (vr : VotingRound H ε) (hst : vr.state = none) :
    VotingRound.precommit env lrs vr = ({ vr with state := none }, .ok) := by
  simp [VotingRound.precommit, hst]

/-- With an empty state, the poll core still drains the incoming stream but
leaves the state empty and the outgoing channel untouched. -/
theorem pollCore_none [DecidableEq H] (env : Env H ε) (lrs : RoundState H)
    (vr : VotingRound H ε) (hst : vr.state = none) :
    (VotingRound.pollCore env lrs vr).1.state = none ∧
      (VotingRound.pollCore env lrs vr).1.outgoing = vr.outgoing := by
  rcases hd : drainLoop vr.votes vr.incoming with ⟨votes', inc', evs, errOpt⟩
  simp only [VotingRound.pollCore, hd]
  cases errOpt with
  | some e => exact ⟨hst, rfl⟩
  | none =>
    have h1 : ({ vr with votes := votes', incoming := inc' } : VotingRound H ε).state
        = none := hst
    simp only [prevote_none env lrs _ h1]
    simp only [precommit_none env lrs
      ({ vr with votes := votes', incoming := inc', state := none } : VotingRound H ε) rfl]
    exact ⟨trivial, trivial⟩

/-- With an empty state, a poll keeps the state empty and pushes nothing
(message counts never increase). -/
theorem poll_none [DecidableEq H] (env : Env H ε) (lrs : RoundState H)
    (q : Message H → Bool) (vr : VotingRound H ε) (hst : vr.state = none) :
    (VotingRound.poll env lrs vr).1.state = none ∧
      (VotingRound.poll env lrs vr).1.emitted.countP q ≤ vr.emitted.countP q := by
  have hc := pollCore_none env lrs vr hst
  rcases hpc : VotingRound.pollCore env lrs vr with ⟨vr3, out, r⟩
  rw [hpc] at hc
  simp only at hc
  simp only [VotingRound.poll, hpc]
  cases r with
  | err e =>
    refine ⟨hc.1, ?_⟩
    simp only [VotingRound.emitted, hc.2]
    exact le_refl _
  | panicked =>
    refine ⟨hc.1, ?_⟩
    simp only [VotingRound.emitted, hc.2]
    exact le_refl _
  | ok =>
    rcases hb : Buffered.poll vr3.outgoing with ⟨og, pr⟩
    have hcount := buffered_poll_countP q vr3.outgoing
    rw [hb] at hcount
    simp only at hcount
    simp only [hb]
    have hmain : (og.inner.accepted ++ og.buffer).countP q ≤
        vr.emitted.countP q := by
      simp only [VotingRound.emitted, ← hc.2]
      exact hcount
    cases pr with
    | err e => exact ⟨hc.1, hmain⟩
    | notReady => exact ⟨hc.1, hmain⟩
    | ready => exact ⟨hc.1, hmain⟩

/-- C10: a prevote-timer error in `Start` (or a precommit-timer error in
`Prevoted`, when the guard lets the timer be polled) is returned with the
taken state left empty; from then on every poll keeps the state empty and
the round never pushes another prevote or precommit. -/
theorem c10_timer_error_poisons_round [DecidableEq H] (env : Env H ε) :
    (∀ (lrs : RoundState H) (vr : VotingRound H ε) (p c : Timer ε) (e : ε),
      vr.state = some (State.start p c) → (Timer.poll p).1 = .err e →
        VotingRound.prevote env lrs vr = ({ vr with state := none }, .err e)) ∧
    (∀ (lrs : RoundState H) (vr : VotingRound H ε) (c : Timer ε) (e : ε)
        (lre g : H × Nat),
      vr.state = some (State.prevoted c) → lrs.estimate = some lre →
        vr.votes.state.prevote_ghost = some g →
        (decide (g = lre) || ancestryOk env lre.1 g.1) = true →
        (Timer.poll c).1 = .err e →
          VotingRound.precommit env lrs vr = ({ vr with state := none }, .err e)) ∧
    (∀ (lrsSeq : Nat → RoundState H) (vr : VotingRound H ε) (n : Nat)
        (q : Message H → Bool),
      vr.state = none →
        (pollIter env lrsSeq n vr).state = none ∧
          (pollIter env lrsSeq n vr).emitted.countP q ≤ vr.emitted.countP q) := by
  refine ⟨?_, ?_, ?_⟩
  · intro lrs vr p c e hst hterr
    simp only [VotingRound.prevote, hst]
    rcases ht : Timer.poll p with ⟨tr, p'⟩
    rw [ht] at hterr
    simp only at hterr
    subst hterr
    simp only [ht]
  · intro lrs vr c e lre g hst hest hg hmay hterr
    simp only [VotingRound.precommit, hst, hest, hg]
    rw [if_pos hmay]
    rcases ht : Timer.poll c with ⟨tr, c'⟩
    rw [ht] at hterr
    simp only at hterr
    subst hterr
    simp only [ht]
  · intro lrsSeq vr n q
    induction n generalizing vr with
    | zero => intro hst; exact ⟨hst, le_refl _⟩
    | succ n ih =>
      intro hst
      have hstep := poll_none env (lrsSeq n) q vr hst
      have hrest := ih (VotingRound.poll env (lrsSeq n) vr).1 hstep.1
      exact ⟨hrest.1, le_trans hrest.2 hstep.2⟩

/-- A concrete round in `Start` whose prevote timer errors at once. -/
def vrStartErr : VotingRound Nat Unit :=
  { vrStart with state := some (State.start [TimerR.err ()] []) }

/-- A concrete round whose state is already empty. -/
def vrDead : VotingRound Nat Unit :=
  { vrStart with state := none }

theorem c10_timer_error_poisons_round_witness :
    VotingRound.prevote envSimple lrsSimple vrStartErr =
        ({ vrStartErr with state := none }, .err ()) ∧
      (pollIter envSimple (fun _ => lrsSimple) 2 vrDead).state = none :=
  ⟨(c10_timer_error_poisons_round envSimple).1 lrsSimple vrStartErr
      [TimerR.err ()] [] () (by decide) (by decide),
    ((c10_timer_error_poisons_round envSimple).2.2 (fun _ => lrsSimple) vrDead 2
      isPrevoteMsg (by decide)).1⟩

/-! Claim C4: readiness of a round poll. -/

theorem prevote_frame [DecidableEq H] (env : Env H ε) (lrs : RoundState H)
    (vr : VotingRound H ε) :
    (VotingRound.prevote env lrs vr).1.votes = vr.votes ∧
      (VotingRound.prevote env lrs vr).1.incoming = vr.incoming ∧
      (VotingRound.prevote env lrs vr).1.bridged_round_state = vr.bridged_round_state ∧
      (VotingRound.prevote env lrs vr).1.primary_block = vr.primary_block := by
  unfold VotingRound.prevote
  repeat' (first | split | dsimp only)
  all_goals exact ⟨rfl, rfl, rfl, rfl⟩

theorem precommit_frame [DecidableEq H] (env : Env H ε) (lrs : RoundState H)
    (vr : VotingRound H ε) :
    (VotingRound.precommit env lrs vr).1.votes = vr.votes ∧
      (VotingRound.precommit env lrs vr).1.incoming = vr.incoming ∧
      (VotingRound.precommit env lrs vr).1.bridged_round_state = vr.bridged_round_state ∧
      (VotingRound.precommit env lrs vr).1.primary_block = vr.primary_block := by
  unfold VotingRound.precommit
  repeat' (first | split | dsimp only)
  all_goals exact ⟨rfl, rfl, rfl, rfl⟩

/-- Every poll core run ends with the incoming stream drained to the same
point (imports happen regardless of the state machine's position), and
leaves the bridging flag and primary hint untouched. -/
theorem pollCore_frame [DecidableEq H] (env : Env H ε) (lrs : RoundState H)
    (vr : VotingRound H ε) :
    (VotingRound.pollCore env lrs vr).1.incoming =
        (drainLoop vr.votes vr.incoming).2.1 ∧
      (VotingRound.pollCore env lrs vr).1.bridged_round_state =
        vr.bridged_round_state ∧
      (VotingRound.pollCore env lrs vr).1.primary_block = vr.primary_block := by
  rcases hd : drainLoop vr.votes vr.incoming with ⟨votes', inc', evs, errOpt⟩
  simp only [VotingRound.pollCore, hd]
  cases errOpt with
  | some e => exact ⟨rfl, rfl, rfl⟩
  | none =>
    rcases hp : VotingRound.prevote env lrs
        ({ vr with votes := votes', incoming := inc' } : VotingRound H ε) with ⟨vr2, r2⟩
    have hf := prevote_frame env lrs
      ({ vr with votes := votes', incoming := inc' } : VotingRound H ε)
    rw [hp] at hf
    simp only [hp]
    cases r2 with
    | err e => exact ⟨hf.2.1, hf.2.2.1, hf.2.2.2⟩
    | panicked => exact ⟨hf.2.1, hf.2.2.1, hf.2.2.2⟩
    | ok =>
      rcases hq : VotingRound.precommit env lrs vr2 with ⟨vr3, r3⟩
      have hg := precommit_frame env lrs vr2
      rw [hq] at hg
      simp only [hq]
      cases r3 with
      | err e =>
        exact ⟨hg.2.1.trans hf.2.1, hg.2.2.1.trans hf.2.2.1, hg.2.2.2.trans hf.2.2.2⟩
      | panicked =>
        exact ⟨hg.2.1.trans hf.2.1, hg.2.2.1.trans hf.2.2.1, hg.2.2.2.trans hf.2.2.2⟩
      | ok =>
        exact ⟨hg.2.1.trans hf.2.1, hg.2.2.1.trans hf.2.2.1, hg.2.2.2.trans hf.2.2.2⟩

/-- C4: a poll of a voting round returns ready iff its core ran error-free,
the buffered outgoing sink polled ready (queue drained and flush
acknowledged), and the tally reports completable; whenever the sink is not
fully flushed the poll is not ready regardless of completability; and every
poll — including one that returns ready — drains the incoming stream, so the
round remains pollable for further inbound votes. -/
theorem c4_poll_ready_iff [DecidableEq H] (env : Env H ε) (lrs : RoundState H)
    (vr : VotingRound H ε) :
    ((VotingRound.poll env lrs vr).2.2 = .ready ↔
      ((VotingRound.pollCore env lrs vr).2.2 = .ok ∧
        (Buffered.poll (VotingRound.pollCore env lrs vr).1.outgoing).2 = .ready ∧
        (VotingRound.pollCore env lrs vr).1.votes.completable = true)) ∧
    ((Buffered.poll (VotingRound.pollCore env lrs vr).1.outgoing).2 ≠ .ready →
      (VotingRound.poll env lrs vr).2.2 ≠ .ready) ∧
    ((VotingRound.poll env lrs vr).1.incoming =
      (drainLoop vr.votes vr.incoming).2.1) := by
  have hinc := (pollCore_frame env lrs vr).1
  rcases hpc : VotingRound.pollCore env lrs vr with ⟨vr3, out, r⟩
  rw [hpc] at hinc
  simp only at hinc
  simp only [VotingRound.poll, hpc]
  cases r with
  | err e =>
    refine ⟨?_, ?_, hinc⟩
    · constructor
      · intro h; cases h
      · rintro ⟨h, -⟩; cases h
    · intro h hc; cases hc
  | panicked =>
    refine ⟨?_, ?_, hinc⟩
    · constructor
      · intro h; cases h
      · rintro ⟨h, -⟩; cases h
    · intro h hc; cases hc
  | ok =>
    rcases hb : Buffered.poll vr3.outgoing with ⟨og, pr⟩
    simp only [hb]
    cases pr with
    | err e =>
      refine ⟨?_, ?_, hinc⟩
      · constructor
        · intro h; cases h
        · rintro ⟨-, h, -⟩; cases h
      · intro h hc; cases hc
    | notReady =>
      refine ⟨?_, ?_, hinc⟩
      · constructor
        · intro h; cases h
        · rintro ⟨-, h, -⟩; cases h
      · intro h hc; cases hc
    | ready =>
      rcases hcm : vr3.votes.completable with _ | _
      · refine ⟨by simp [hcm], ?_, hinc⟩
        intro h
        simp at h
      · refine ⟨by simp [hcm], ?_, hinc⟩
        intro h
        simp at h

/-- Witness for C4 on a concrete completable, flushed round. -/
theorem c4_poll_ready_iff_witness :
    (VotingRound.poll envSimple lrsSimple vrPrevoted).2.2 = .ready ∧
      (VotingRound.poll envSimple lrsSimple vrPrevoted).1.incoming = [] :=
  ⟨((c4_poll_ready_iff envSimple lrsSimple vrPrevoted).1).2
      ⟨by decide, by decide, by decide⟩,
    (c4_poll_ready_iff envSimple lrsSimple vrPrevoted).2.2⟩

/-! Claim C2: at most one prevote and one precommit per round. -/

@[simp] theorem isPrevoteMsg_prevote (p : Prevote H) :
    isPrevoteMsg (Message.prevote p) = true := rfl

@[simp] theorem isPrevoteMsg_precommit (p : Precommit H) :
    isPrevoteMsg (Message.precommit p) = false := rfl

@[simp] theorem isPrecommitMsg_prevote (p : Prevote H) :
    isPrecommitMsg (Message.prevote p) = false := rfl

@[simp] theorem isPrecommitMsg_precommit (p : Precommit H) :
    isPrecommitMsg (Message.precommit p) = true := rfl

/-- The state-machine invariant tying the number of emitted prevotes and
precommits to the round's position: nothing before `Start` leaves, at most
one prevote and no precommit once `Prevoted`, at most one of each
afterwards (`Precommitted` or a poisoned `None` state). -/
def atMostOneInv (vr : VotingRound H ε) : Prop :=
  match vr.state with
  | some (State.start _ _) =>
      vr.emitted.countP isPrevoteMsg = 0 ∧ vr.emitted.countP isPrecommitMsg = 0
  | some (State.prevoted _) =>
      vr.emitted.countP isPrevoteMsg ≤ 1 ∧ vr.emitted.countP isPrecommitMsg = 0
  | _ =>
      vr.emitted.countP isPrevoteMsg ≤ 1 ∧ vr.emitted.countP isPrecommitMsg ≤ 1

theorem atMostOneInv_le (vr : VotingRound H ε) (h : atMostOneInv vr) :
    vr.emitted.countP isPrevoteMsg ≤ 1 ∧ vr.emitted.countP isPrecommitMsg ≤ 1 := by
  unfold atMostOneInv at h
  rcases hst : vr.state with _ | st
  · rw [hst] at h; exact h
  cases st with
  | start p c =>
    rw [hst] at h
    rcases h with ⟨h1, h2⟩
    omega
  | prevoted c =>
    rw [hst] at h
    rcases h with ⟨h1, h2⟩
    omega
  | precommitted =>
    rw [hst] at h
    exact h

theorem prevote_atMostOne [DecidableEq H] (env : Env H ε) (lrs : RoundState H)
    (vr : VotingRound H ε) (h : atMostOneInv vr) :
    atMostOneInv (VotingRound.prevote env lrs vr).1 := by
  unfold atMostOneInv at h ⊢
  rcases hst : vr.state with _ | st
  · rw [hst] at h
    simp only [VotingRound.prevote, hst]
    exact h
  cases st with
  | precommitted =>
    rw [hst] at h
    simp only [VotingRound.prevote, hst]
    exact h
  | prevoted c =>
    rw [hst] at h
    simp only [VotingRound.prevote, hst]
    exact h
  | start p c =>
    rw [hst] at h
    rcases h with ⟨h1, h2⟩
    simp only [VotingRound.emitted, List.countP_append] at h1 h2
    simp only [VotingRound.prevote, hst]
    rcases ht : Timer.poll p with ⟨tr, p2⟩
    cases tr with
    | err e =>
      refine ⟨?_, ?_⟩ <;>
        simp only [VotingRound.emitted, Buffered.push, List.countP_append,
            List.countP_cons, List.countP_nil, isPrevoteMsg_prevote,
            isPrevoteMsg_precommit, isPrecommitMsg_prevote,
            isPrecommitMsg_precommit, eq_self_iff_true, if_true, if_false,
            Bool.false_eq_true] <;> omega
    | ready =>
      try simp only []
      rcases hc : VotingRound.construct_prevote env lrs vr with _ | opt
      · refine ⟨?_, ?_⟩ <;>
          simp only [VotingRound.emitted, Buffered.push, List.countP_append,
            List.countP_cons, List.countP_nil, isPrevoteMsg_prevote,
            isPrevoteMsg_precommit, isPrecommitMsg_prevote,
            isPrecommitMsg_precommit, eq_self_iff_true, if_true, if_false,
            Bool.false_eq_true] <;> omega
      · try simp only []
        cases opt with
        | none =>
          refine ⟨?_, ?_⟩ <;>
            simp only [VotingRound.emitted, Buffered.push, List.countP_append,
            List.countP_cons, List.countP_nil, isPrevoteMsg_prevote,
            isPrevoteMsg_precommit, isPrecommitMsg_prevote,
            isPrecommitMsg_precommit, eq_self_iff_true, if_true, if_false,
            Bool.false_eq_true] <;> omega
        | some pv =>
          refine ⟨?_, ?_⟩ <;>
            simp only [VotingRound.emitted, Buffered.push, List.countP_append,
            List.countP_cons, List.countP_nil, isPrevoteMsg_prevote,
            isPrevoteMsg_precommit, isPrecommitMsg_prevote,
            isPrecommitMsg_precommit, eq_self_iff_true, if_true, if_false,
            Bool.false_eq_true] <;> omega
    | notReady =>
      rcases hcm : vr.votes.completable with _ | _ <;> simp only [hcm]
      · refine ⟨?_, ?_⟩ <;>
          simp only [VotingRound.emitted, Buffered.push, List.countP_append,
            List.countP_cons, List.countP_nil, isPrevoteMsg_prevote,
            isPrevoteMsg_precommit, isPrecommitMsg_prevote,
            isPrecommitMsg_precommit, eq_self_iff_true, if_true, if_false,
            Bool.false_eq_true] <;> omega
      · try simp only []
        rcases hc : VotingRound.construct_prevote env lrs vr with _ | opt
        · refine ⟨?_, ?_⟩ <;>
            simp only [VotingRound.emitted, Buffered.push, List.countP_append,
            List.countP_cons, List.countP_nil, isPrevoteMsg_prevote,
            isPrevoteMsg_precommit, isPrecommitMsg_prevote,
            isPrecommitMsg_precommit, eq_self_iff_true, if_true, if_false,
            Bool.false_eq_true] <;> omega
        · try simp only []
          cases opt with
          | none =>
            refine ⟨?_, ?_⟩ <;>
              simp only [VotingRound.emitted, Buffered.push, List.countP_append,
            List.countP_cons, List.countP_nil, isPrevoteMsg_prevote,
            isPrevoteMsg_precommit, isPrecommitMsg_prevote,
            isPrecommitMsg_precommit, eq_self_iff_true, if_true, if_false,
            Bool.false_eq_true] <;> omega
          | some pv =>
            refine ⟨?_, ?_⟩ <;>
              simp only [VotingRound.emitted, Buffered.push, List.countP_append,
            List.countP_cons, List.countP_nil, isPrevoteMsg_prevote,
            isPrevoteMsg_precommit, isPrecommitMsg_prevote,
            isPrecommitMsg_precommit, eq_self_iff_true, if_true, if_false,
            Bool.false_eq_true] <;> omega

theorem precommit_atMostOne [DecidableEq H] (env : Env H ε) (lrs : RoundState H)
    (vr : VotingRound H ε) (h : atMostOneInv vr) :
    atMostOneInv (VotingRound.precommit env lrs vr).1 := by
  unfold atMostOneInv at h ⊢
  rcases hst : vr.state with _ | st
  · rw [hst] at h
    simp only [VotingRound.precommit, hst]
    exact h
  cases st with
  | start p c =>
    rw [hst] at h
    simp only [VotingRound.precommit, hst]
    exact h
  | precommitted =>
    rw [hst] at h
    simp only [VotingRound.precommit, hst]
    exact h
  | prevoted c =>
    rw [hst] at h
    rcases h with ⟨h1, h2⟩
    simp only [VotingRound.emitted, List.countP_append] at h1 h2
    simp only [VotingRound.precommit, hst]
    rcases hest : lrs.estimate with _ | lre
    · refine ⟨?_, ?_⟩ <;>
        simp only [VotingRound.emitted, Buffered.push, List.countP_append,
            List.countP_cons, List.countP_nil, isPrevoteMsg_prevote,
            isPrevoteMsg_precommit, isPrecommitMsg_prevote,
            isPrecommitMsg_precommit, eq_self_iff_true, if_true, if_false,
            Bool.false_eq_true] <;> omega
    try simp only []
    rcases hg : vr.votes.state.prevote_ghost with _ | p_g
    · refine ⟨?_, ?_⟩ <;>
        simp only [VotingRound.emitted, Buffered.push, List.countP_append,
            List.countP_cons, List.countP_nil, isPrevoteMsg_prevote,
            isPrevoteMsg_precommit, isPrecommitMsg_prevote,
            isPrecommitMsg_precommit, eq_self_iff_true, if_true, if_false,
            Bool.false_eq_true] <;> omega
    try simp only []
    by_cases hmay : (decide (p_g = lre) || ancestryOk env lre.1 p_g.1) = true
    · rw [if_pos hmay]
      rcases ht : Timer.poll c with ⟨tr, c2⟩
      cases tr with
      | err e =>
        refine ⟨?_, ?_⟩ <;>
          simp only [VotingRound.emitted, Buffered.push, List.countP_append,
            List.countP_cons, List.countP_nil, isPrevoteMsg_prevote,
            isPrevoteMsg_precommit, isPrecommitMsg_prevote,
            isPrecommitMsg_precommit, eq_self_iff_true, if_true, if_false,
            Bool.false_eq_true] <;> omega
      | ready =>
        refine ⟨?_, ?_⟩ <;>
          simp only [VotingRound.emitted, Buffered.push, List.countP_append,
            List.countP_cons, List.countP_nil, isPrevoteMsg_prevote,
            isPrevoteMsg_precommit, isPrecommitMsg_prevote,
            isPrecommitMsg_precommit, eq_self_iff_true, if_true, if_false,
            Bool.false_eq_true] <;> omega
      | notReady =>
        rcases hcm : vr.votes.completable with _ | _ <;> simp only [hcm]
        · refine ⟨?_, ?_⟩ <;>
            simp only [VotingRound.emitted, Buffered.push, List.countP_append,
            List.countP_cons, List.countP_nil, isPrevoteMsg_prevote,
            isPrevoteMsg_precommit, isPrecommitMsg_prevote,
            isPrecommitMsg_precommit, eq_self_iff_true, if_true, if_false,
            Bool.false_eq_true] <;> omega
        · refine ⟨?_, ?_⟩ <;>
            simp only [VotingRound.emitted, Buffered.push, List.countP_append,
            List.countP_cons, List.countP_nil, isPrevoteMsg_prevote,
            isPrevoteMsg_precommit, isPrecommitMsg_prevote,
            isPrecommitMsg_precommit, eq_self_iff_true, if_true, if_false,
            Bool.false_eq_true] <;> omega
    · rw [if_neg hmay]
      refine ⟨?_, ?_⟩ <;>
        simp only [VotingRound.emitted, Buffered.push, List.countP_append,
            List.countP_cons, List.countP_nil, isPrevoteMsg_prevote,
            isPrevoteMsg_precommit, isPrecommitMsg_prevote,
            isPrecommitMsg_precommit, eq_self_iff_true, if_true, if_false,
            Bool.false_eq_true] <;> omega

theorem pollCore_atMostOne [DecidableEq H] (env : Env H ε) (lrs : RoundState H)
    (vr : VotingRound H ε) (h : atMostOneInv vr) :
    atMostOneInv (VotingRound.pollCore env lrs vr).1 := by
  rcases hd : drainLoop vr.votes vr.incoming with ⟨votes2, inc2, evs, errOpt⟩
  simp only [VotingRound.pollCore, hd]
  cases errOpt with
  | some e => exact h
  | none =>
    have h1 : atMostOneInv
        ({ vr with votes := votes2, incoming := inc2 } : VotingRound H ε) := h
    rcases hp : VotingRound.prevote env lrs
        ({ vr with votes := votes2, incoming := inc2 } : VotingRound H ε) with ⟨vr2, r2⟩
    have h2 := prevote_atMostOne env lrs
      ({ vr with votes := votes2, incoming := inc2 } : VotingRound H ε) h1
    rw [hp] at h2
    simp only at h2
    simp only [hp]
    cases r2 with
    | err e => exact h2
    | panicked => exact h2
    | ok =>
      rcases hq : VotingRound.precommit env lrs vr2 with ⟨vr3, r3⟩
      have h3 := precommit_atMostOne env lrs vr2 h2
      rw [hq] at h3
      simp only at h3
      simp only [hq]
      cases r3 with
      | err e => exact h3
      | panicked => exact h3
      | ok => exact h3

theorem poll_atMostOne [DecidableEq H] (env : Env H ε) (lrs : RoundState H)
    (vr : VotingRound H ε) (h : atMostOneInv vr) :
    atMostOneInv (VotingRound.poll env lrs vr).1 := by
  have hc := pollCore_atMostOne env lrs vr h
  rcases hpc : VotingRound.pollCore env lrs vr with ⟨vr3, out, r⟩
  rw [hpc] at hc
  simp only at hc
  simp only [VotingRound.poll, hpc]
  cases r with
  | err e => exact hc
  | panicked => exact hc
  | ok =>
    rcases hb : Buffered.poll vr3.outgoing with ⟨og, pr⟩
    simp only [hb]
    have hcp := buffered_poll_countP isPrevoteMsg vr3.outgoing
    have hcc := buffered_poll_countP isPrecommitMsg vr3.outgoing
    rw [hb] at hcp hcc
    simp only at hcp hcc
    have key : atMostOneInv ({ vr3 with outgoing := og } : VotingRound H ε) := by
      unfold atMostOneInv at hc ⊢
      rcases hst : vr3.state with _ | st
      · simp only [hst] at hc ⊢
        simp only [VotingRound.emitted] at hc hcp hcc ⊢
        rcases hc with ⟨hc1, hc2⟩
        exact ⟨by omega, by omega⟩
      cases st with
      | start p c =>
        simp only [hst] at hc ⊢
        simp only [VotingRound.emitted] at hc hcp hcc ⊢
        rcases hc with ⟨hc1, hc2⟩
        exact ⟨by omega, by omega⟩
      | prevoted c =>
        simp only [hst] at hc ⊢
        simp only [VotingRound.emitted] at hc hcp hcc ⊢
        rcases hc with ⟨hc1, hc2⟩
        exact ⟨by omega, by omega⟩
      | precommitted =>
        simp only [hst] at hc ⊢
        simp only [VotingRound.emitted] at hc hcp hcc ⊢
        rcases hc with ⟨hc1, hc2⟩
        exact ⟨by omega, by omega⟩
    cases pr with
    | err e => exact key
    | notReady => exact key
    | ready => exact key

theorem pollIter_atMostOne [DecidableEq H] (env : Env H ε)
    (lrsSeq : Nat → RoundState H) (n : Nat) (vr : VotingRound H ε)
    (h : atMostOneInv vr) : atMostOneInv (pollIter env lrsSeq n vr) := by
  induction n generalizing vr with
  | zero => exact h
  | succ n ih => exact ih _ (poll_atMostOne env (lrsSeq n) vr h)

/-- C2: over its whole lifetime — no matter how many times it is polled and
what the environment scripts do — a round constructed by the engine pushes
at most one `Prevote` and at most one `Precommit` into its outgoing channel;
in particular the underlying sink accepts at most one of each. -/
theorem c2_at_most_one_vote_per_round [DecidableEq H] (env : Env H ε)
    (lrsSeq : Nat → RoundState H) (number : Nat) (base : H × Nat)
    (rd : RoundData H ε) (n : Nat) :
    (pollIter env lrsSeq n (mkVotingRound number base rd)).emitted.countP
        isPrevoteMsg ≤ 1 ∧
      (pollIter env lrsSeq n (mkVotingRound number base rd)).emitted.countP
        isPrecommitMsg ≤ 1 ∧
      (pollIter env lrsSeq n
          (mkVotingRound number base rd)).outgoing.inner.accepted.countP
        isPrevoteMsg ≤ 1 ∧
      (pollIter env lrsSeq n
          (mkVotingRound number base rd)).outgoing.inner.accepted.countP
        isPrecommitMsg ≤ 1 := by
  have h0 : atMostOneInv (mkVotingRound number base rd : VotingRound H ε) := by
    unfold atMostOneInv mkVotingRound
    simp [VotingRound.emitted]
  have hinv := pollIter_atMostOne env lrsSeq n (mkVotingRound number base rd) h0
  have hle := atMostOneInv_le _ hinv
  rcases hle with ⟨hle1, hle2⟩
  simp only [VotingRound.emitted, List.countP_append] at hle1 hle2 ⊢
  exact ⟨by omega, by omega, by omega, by omega⟩

/-! Claim C1: monotone finalization.  `chainFrom a l` says the heights in `l`
are strictly increasing and all strictly above `a`; `lastFrom a l` is the
last element (or `a` when `l` is empty). -/

def chainFrom (a : Nat) : List Nat → Prop
  | [] => True
  | b :: l => a < b ∧ chainFrom b l

def lastFrom (a : Nat) : List Nat → Nat
  | [] => a
  | b :: l => lastFrom b l

@[simp] theorem chainFrom_nil (a : Nat) : chainFrom a [] := trivial

@[simp] theorem chainFrom_cons (a b : Nat) (l : List Nat) :
    chainFrom a (b :: l) ↔ a < b ∧ chainFrom b l := Iff.rfl

@[simp] theorem lastFrom_nil (a : Nat) : lastFrom a [] = a := rfl

@[simp] theorem lastFrom_cons (a b : Nat) (l : List Nat) :
    lastFrom a (b :: l) = lastFrom b l := rfl

theorem chainFrom_append (a : Nat) (l1 l2 : List Nat) :
    chainFrom a (l1 ++ l2) ↔ chainFrom a l1 ∧ chainFrom (lastFrom a l1) l2 := by
  induction l1 generalizing a with
  | nil => simp
  | cons b l ih => simp [ih, and_assoc]

theorem lastFrom_append (a : Nat) (l1 l2 : List Nat) :
    lastFrom a (l1 ++ l2) = lastFrom (lastFrom a l1) l2 := by
  induction l1 generalizing a with
  | nil => rfl
  | cons b l ih => simp [ih]

@[simp] theorem finalizeHeights_nil : finalizeHeights ([] : List (Event H)) = [] := rfl

@[simp] theorem finalizeHeights_cons_finalize (h : H) (n : Nat) (evs : List (Event H)) :
    finalizeHeights (Event.finalize h n :: evs) = n :: finalizeHeights evs := rfl

@[simp] theorem finalizeHeights_cons_completed (r : Nat) (st : RoundState H)
    (evs : List (Event H)) :
    finalizeHeights (Event.completed r st :: evs) = finalizeHeights evs := rfl

@[simp] theorem finalizeHeights_cons_pv_equiv (r q : Nat) (evs : List (Event H)) :
    finalizeHeights (Event.prevote_equivocation r q :: evs) = finalizeHeights evs := rfl

@[simp] theorem finalizeHeights_cons_pc_equiv (r q : Nat) (evs : List (Event H)) :
    finalizeHeights (Event.precommit_equivocation r q :: evs) = finalizeHeights evs := rfl

@[simp] theorem finalizeHeights_cons_dropped (r : Nat) (est : Option (H × Nat))
    (evs : List (Event H)) :
    finalizeHeights (Event.dropped r est :: evs) = finalizeHeights evs := rfl

@[simp] theorem finalizeHeights_append (evs1 evs2 : List (Event H)) :
    finalizeHeights (evs1 ++ evs2) = finalizeHeights evs1 ++ finalizeHeights evs2 := by
  simp [finalizeHeights]

/-- The incoming-drain loop reports equivocations only — never a
finalization. -/
theorem drainLoop_no_finalize (votes : Round H ε) (inc : List (InR H ε)) :
    finalizeHeights (drainLoop votes inc).2.2.1 = [] := by
  induction inc generalizing votes with
  | nil => rfl
  | cons i rest ih =>
    cases i with
    | pending => rfl
    | closed => rfl
    | err e => rfl
    | msg m =>
      simp only [drainLoop]
      rcases hv : votes.import_vote with e | ⟨votes2, q⟩
      · rfl
      · simp only []
        rcases hr : drainLoop votes2 rest with ⟨v2, inc2, evs2, e2⟩
        have := ih votes2
        rw [hr] at this
        simp only at this
        cases q with
        | none => simpa using this
        | some qq =>
          cases m.message with
          | prevote p => simpa using this
          | precommit p => simpa using this

/-- A voting-round poll never emits a `finalize` event itself (those are
issued only by the voter's prune step). -/
theorem poll_no_finalize [DecidableEq H] (env : Env H ε) (lrs : RoundState H)
    (vr : VotingRound H ε) :
    finalizeHeights (VotingRound.poll env lrs vr).2.1.events = [] := by
  have hd0 := drainLoop_no_finalize vr.votes vr.incoming
  rcases hd : drainLoop vr.votes vr.incoming with ⟨votes2, inc2, evs, errOpt⟩
  rw [hd] at hd0
  simp only at hd0
  have hcore : finalizeHeights (VotingRound.pollCore env lrs vr).2.1.events = [] := by
    simp only [VotingRound.pollCore, hd]
    cases errOpt with
    | some e => exact hd0
    | none =>
      rcases hp : VotingRound.prevote env lrs
          ({ vr with votes := votes2, incoming := inc2 } : VotingRound H ε) with ⟨vr2, r2⟩
      simp only [hp]
      cases r2 with
      | err e => exact hd0
      | panicked => exact hd0
      | ok =>
        rcases hq : VotingRound.precommit env lrs vr2 with ⟨vr3, r3⟩
        simp only [hq]
        cases r3 with
        | err e => exact hd0
        | panicked => exact hd0
        | ok => exact hd0
  rcases hpc : VotingRound.pollCore env lrs vr with ⟨vr3, out, r⟩
  rw [hpc] at hcore
  simp only at hcore
  simp only [VotingRound.poll, hpc]
  cases r with
  | err e => exact hcore
  | panicked => exact hcore
  | ok =>
    rcases hb : Buffered.poll vr3.outgoing with ⟨og, pr⟩
    simp only [hb]
    cases pr with
    | err e => exact hcore
    | notReady => exact hcore
    | ready => exact hcore

/-- A background-round poll inherits the inner round's events. -/
theorem bg_poll_no_finalize [DecidableEq H] (env : Env H ε) (lrs : RoundState H)
    (bg : BackgroundRound H ε) :
    finalizeHeights (BackgroundRound.poll env lrs bg).2.1.events = [] := by
  have h := poll_no_finalize env lrs bg.inner
  rcases hp : VotingRound.poll env lrs bg.inner with ⟨vr2, out, r⟩
  rw [hp] at h
  simp only at h
  simp only [BackgroundRound.poll, hp]
  cases r with
  | err e => exact h
  | panicked => exact h
  | notReady => exact h
  | ready => exact h

/-- The pump loop emits equivocation and `dropped` events only. -/
theorem pumpRounds_no_finalize [DecidableEq H] (env : Env H ε)
    (l : List (BackgroundRound H ε)) (cells : List (Nat × RoundState H)) :
    finalizeHeights (pumpRounds env l cells).2.2.2.1 = [] := by
  induction l generalizing cells with
  | nil => rfl
  | cons bg rest ih =>
    simp only [pumpRounds]
    have h0 := bg_poll_no_finalize env
      (lookupCell cells (bg.inner.votes.round_number - 1)) bg
    rcases hp : BackgroundRound.poll env
        (lookupCell cells (bg.inner.votes.round_number - 1)) bg with ⟨bg2, out, r⟩
    rw [hp] at h0
    simp only at h0
    cases r with
    | err e => exact h0
    | panicked => exact h0
    | ready =>
      rcases hbu : out.bridgeUpdate with _ | stc <;> simp only [hbu]
      · rcases hr : pumpRounds env rest cells with ⟨rs, cs, ns, es, st2⟩
        have := ih cells
        rw [hr] at this
        simp only at this
        simp only [hr]
        simp [h0, this]
      · rcases hr : pumpRounds env rest
            ((bg2.inner.votes.round_number, stc) :: cells) with ⟨rs, cs, ns, es, st2⟩
        have := ih ((bg2.inner.votes.round_number, stc) :: cells)
        rw [hr] at this
        simp only at this
        simp only [hr]
        simp [h0, this]
    | notReady =>
      rcases hbu : out.bridgeUpdate with _ | stc <;> simp only [hbu]
      · rcases hr : pumpRounds env rest cells with ⟨rs, cs, ns, es, st2⟩
        have := ih cells
        rw [hr] at this
        simp only at this
        simp only [hr]
        simp [h0, this]
      · rcases hr : pumpRounds env rest
            ((bg2.inner.votes.round_number, stc) :: cells) with ⟨rs, cs, ns, es, st2⟩
        have := ih ((bg2.inner.votes.round_number, stc) :: cells)
        rw [hr] at this
        simp only at this
        simp only [hr]
        simp [h0, this]

/-- The notification drain produces a strictly increasing run of finalize
heights starting above the current `last_finalized`, and leaves
`last_finalized` at the last height announced. -/
theorem drainNotifications_spec (past : List (BackgroundRound H ε)) (lf : H × Nat)
    (ns : List (H × Nat)) :
    chainFrom lf.2 (finalizeHeights (drainNotifications past lf ns).2.2) ∧
      (drainNotifications past lf ns).2.1.2 =
        lastFrom lf.2 (finalizeHeights (drainNotifications past lf ns).2.2) := by
  induction ns generalizing past lf with
  | nil => simp [drainNotifications]
  | cons n rest ih =>
    rcases n with ⟨f_hash, f_num⟩
    simp only [drainNotifications]
    by_cases hlt : lf.2 < f_num
    · rw [if_pos hlt]
      rcases hr : drainNotifications (past.map fun bg => bg.update_finalized f_num)
          (f_hash, f_num) rest with ⟨p2, lf2, evs⟩
      have := ih (past.map fun bg => bg.update_finalized f_num) (f_hash, f_num)
      rw [hr] at this
      simp only at this
      simp only [hr]
      simp only [finalizeHeights_cons_finalize, chainFrom_cons, lastFrom_cons]
      exact ⟨⟨hlt, this.1⟩, this.2⟩
    · rw [if_neg hlt]
      exact ih (past.map fun bg => bg.update_finalized f_num) lf

/-- `prune_background` finalizes a strictly increasing run of heights above
`last_finalized` and leaves `last_finalized` at the last announced height. -/
theorem prune_spec [DecidableEq H] (env : Env H ε) (v : Voter H ε) :
    chainFrom v.last_finalized.2
        (finalizeHeights (Voter.prune_background env v).2.1) ∧
      (Voter.prune_background env v).1.last_finalized.2 =
        lastFrom v.last_finalized.2
          (finalizeHeights (Voter.prune_background env v).2.1) := by
  have hd := drainNotifications_spec v.past_rounds v.last_finalized v.notifications
  rcases hdr : drainNotifications v.past_rounds v.last_finalized v.notifications
      with ⟨past1, lf1, evs1⟩
  rw [hdr] at hd
  simp only at hd
  have hpn := pumpRounds_no_finalize env past1 v.cells
  rcases hpr : pumpRounds env past1 v.cells with ⟨past2, cells2, ntfs2, evs2, r⟩
  rw [hpr] at hpn
  simp only at hpn
  simp only [Voter.prune_background, hdr, hpr]
  simp only [finalizeHeights_append, hpn, List.append_nil]
  exact hd

/-- Glue for the rotation re-poll: prepend an already-chained prefix and a
`completed` event to a chained suffix. -/
theorem glue_chain (base c : Nat) (E1 E2 F : List (Event H)) (k : Nat)
    (stx : RoundState H) (h1 : chainFrom base (finalizeHeights E1))
    (h2 : finalizeHeights E2 = [])
    (h3 : chainFrom c (finalizeHeights F))
    (hc : c = lastFrom base (finalizeHeights E1)) :
    chainFrom base (finalizeHeights ((E1 ++ E2) ++ Event.completed k stx :: F)) := by
  subst hc
  simp only [finalizeHeights_append, finalizeHeights_cons_completed, h2,
    List.append_nil, chainFrom_append]
  exact ⟨h1, h3⟩

/-- Glue for the rotation re-poll: the final `last_finalized` is the last
height of the whole event run. -/
theorem glue_last (base c d : Nat) (E1 E2 F : List (Event H)) (k : Nat)
    (stx : RoundState H) (h2 : finalizeHeights E2 = [])
    (h3 : d = lastFrom c (finalizeHeights F))
    (hc : c = lastFrom base (finalizeHeights E1)) :
    d = lastFrom base (finalizeHeights ((E1 ++ E2) ++ Event.completed k stx :: F)) := by
  subst h3
  subst hc
  simp only [finalizeHeights_append, finalizeHeights_cons_completed, h2,
    List.append_nil, lastFrom_append]

/-- One voter poll finalizes a strictly increasing run of heights above the
entry `last_finalized`, tracking `last_finalized` to the last of them. -/
theorem voterPoll_spec [DecidableEq H] (env : Env H ε) (fuel : Nat) (v : Voter H ε) :
    chainFrom v.last_finalized.2 (finalizeHeights (Voter.poll env fuel v).2.1) ∧
      (Voter.poll env fuel v).1.last_finalized.2 =
        lastFrom v.last_finalized.2 (finalizeHeights (Voter.poll env fuel v).2.1) := by
  induction fuel generalizing v with
  | zero =>
    have hp := prune_spec env v
    rcases hpr : Voter.prune_background env v with ⟨v1, evs, r0⟩
    rw [hpr] at hp
    simp only at hp
    rw [Voter.poll.eq_def]
    simp only [hpr]
    cases r0
    case err e => exact hp
    case panicked => exact hp
    all_goals (
      have hb := poll_no_finalize env
        (lookupCell v1.cells (v1.best_round.votes.round_number - 1)) v1.best_round
      rcases hbr : VotingRound.poll env
          (lookupCell v1.cells (v1.best_round.votes.round_number - 1)) v1.best_round
          with ⟨br2, out, r⟩
      rw [hbr] at hb
      simp only at hb
      simp only [hbr]
      rcases hbu : out.bridgeUpdate with _ | stc <;> simp only [hbu] <;>
      (cases r
       case err e =>
         simp only [finalizeHeights_append, hb, List.append_nil]
         exact hp
       case panicked =>
         simp only [finalizeHeights_append, hb, List.append_nil]
         exact hp
       case notReady =>
         simp only [finalizeHeights_append, hb, List.append_nil]
         exact hp
       case ready =>
         rcases hst2 : br2.state with _ | st
         · simp only [finalizeHeights_append, hb, List.append_nil]
           exact hp
         · cases st
           case start p c =>
             simp only [finalizeHeights_append, hb, List.append_nil]
             exact hp
           case prevoted c =>
             simp only [finalizeHeights_append, hb, List.append_nil]
             exact hp
           case precommitted =>
             simp only [finalizeHeights_append, finalizeHeights_cons_completed,
               finalizeHeights_nil, hb, List.append_nil]
             exact hp))
  | succ fuel ih =>
    have hp := prune_spec env v
    rcases hpr : Voter.prune_background env v with ⟨v1, evs, r0⟩
    rw [hpr] at hp
    simp only at hp
    rw [Voter.poll.eq_def]
    simp only [hpr]
    cases r0
    case err e => exact hp
    case panicked => exact hp
    all_goals (
      have hb := poll_no_finalize env
        (lookupCell v1.cells (v1.best_round.votes.round_number - 1)) v1.best_round
      rcases hbr : VotingRound.poll env
          (lookupCell v1.cells (v1.best_round.votes.round_number - 1)) v1.best_round
          with ⟨br2, out, r⟩
      rw [hbr] at hb
      simp only at hb
      simp only [hbr]
      rcases hbu : out.bridgeUpdate with _ | stc <;> simp only [hbu] <;>
      (cases r
       case err e =>
         simp only [finalizeHeights_append, hb, List.append_nil]
         exact hp
       case panicked =>
         simp only [finalizeHeights_append, hb, List.append_nil]
         exact hp
       case notReady =>
         simp only [finalizeHeights_append, hb, List.append_nil]
         exact hp
       case ready =>
         rcases hst2 : br2.state with _ | st
         · simp only [finalizeHeights_append, hb, List.append_nil]
           exact hp
         · cases st
           case start p c =>
             simp only [finalizeHeights_append, hb, List.append_nil]
             exact hp
           case prevoted c =>
             simp only [finalizeHeights_append, hb, List.append_nil]
             exact hp
           case precommitted =>
             exact ⟨glue_chain _ _ _ _ _ _ _ hp.1 hb (ih _).1 hp.2,
               glue_last _ _ _ _ _ _ _ _ hb (ih _).2 hp.2⟩))

/-- Iterated voter polls finalize a strictly increasing run of heights above
the initial `last_finalized`. -/
theorem voterRun_spec [DecidableEq H] (env : Env H ε) (fuel n : Nat) (v : Voter H ε) :
    chainFrom v.last_finalized.2 (finalizeHeights (Voter.run env fuel n v).2) ∧
      (Voter.run env fuel n v).1.last_finalized.2 =
        lastFrom v.last_finalized.2 (finalizeHeights (Voter.run env fuel n v).2) := by
  induction n generalizing v with
  | zero => simp [Voter.run]
  | succ n ih =>
    have h1 := voterPoll_spec env fuel v
    rcases hp1 : Voter.poll env fuel v with ⟨v1, evs, r⟩
    rw [hp1] at h1
    simp only at h1
    simp only [Voter.run, hp1]
    have h2 := ih v1
    rcases hr : Voter.run env fuel n v1 with ⟨v2, evs2⟩
    rw [hr] at h2
    simp only at h2
    cases r
    case err e => exact h1
    case panicked => exact h1
    all_goals (
      simp only [hr]
      simp only [finalizeHeights_append, chainFrom_append, lastFrom_append]
      refine ⟨⟨h1.1, ?_⟩, ?_⟩
      · rw [← h1.2]
        exact h2.1
      · rw [← h1.2]
        exact h2.2)

/-- C1: across the lifetime of a `Voter` started from `Voter.new`, the
sequence of heights passed to `finalize_block` is strictly increasing, and
every height exceeds the initial `last_finalized` height — so
`finalize_block` is invoked at most once per height and never at or below
the `last_finalized` height current at the time of the call. -/
theorem c1_monotone_finalization [DecidableEq H] (env : Env H ε) (last_round : Nat)
    (st : RoundState H) (lf : H × Nat) (fuel n : Nat) :
    chainFrom lf.2
      (finalizeHeights (Voter.run env fuel n (Voter.new env last_round st lf)).2) :=
  (voterRun_spec env fuel n (Voter.new env last_round st lf)).1

/-! Claims C9 and C7: voter-level invariants. -/

/-- A round poll never changes the primary hint. -/
theorem poll_primary [DecidableEq H] (env : Env H ε) (lrs : RoundState H)
    (vr : VotingRound H ε) :
    (VotingRound.poll env lrs vr).1.primary_block = vr.primary_block := by
  have hf := (pollCore_frame env lrs vr).2.2
  rcases hpc : VotingRound.pollCore env lrs vr with ⟨vr3, out, r⟩
  rw [hpc] at hf
  simp only at hf
  simp only [VotingRound.poll, hpc]
  cases r with
  | err e => exact hf
  | panicked => exact hf
  | ok =>
    rcases hb : Buffered.poll vr3.outgoing with ⟨og, pr⟩
    simp only [hb]
    cases pr with
    | err e => exact hf
    | notReady => exact hf
    | ready => exact hf

/-- A background-round poll never changes the primary hint or the stored
finalized height. -/
theorem bg_poll_frame [DecidableEq H] (env : Env H ε) (lrs : RoundState H)
    (bg : BackgroundRound H ε) :
    (BackgroundRound.poll env lrs bg).1.inner.primary_block =
        bg.inner.primary_block ∧
      (BackgroundRound.poll env lrs bg).1.finalized_number = bg.finalized_number := by
  have h := poll_primary env lrs bg.inner
  rcases hp : VotingRound.poll env lrs bg.inner with ⟨vr2, out, r⟩
  rw [hp] at h
  simp only at h
  simp only [BackgroundRound.poll, hp]
  cases r with
  | err e => exact ⟨h, rfl⟩
  | panicked => exact ⟨h, rfl⟩
  | notReady => exact ⟨h, rfl⟩
  | ready => exact ⟨h, rfl⟩

/-- Every background round surviving the pump stems from an input round,
with the primary hint and finalized height unchanged. -/
theorem pumpRounds_mem [DecidableEq H] (env : Env H ε)
    (l : List (BackgroundRound H ε)) (cells : List (Nat × RoundState H)) :
    ∀ bg2 ∈ (pumpRounds env l cells).1, ∃ bg ∈ l,
      bg2.inner.primary_block = bg.inner.primary_block ∧
        bg2.finalized_number = bg.finalized_number := by
  induction l generalizing cells with
  | nil =>
    intro bg2 h
    simp [pumpRounds] at h
  | cons bg rest ih =>
    intro bg2 h2
    simp only [pumpRounds] at h2
    have hf := bg_poll_frame env (lookupCell cells (bg.inner.votes.round_number - 1)) bg
    rcases hp : BackgroundRound.poll env
        (lookupCell cells (bg.inner.votes.round_number - 1)) bg with ⟨bg1, out, r⟩
    rw [hp] at hf h2
    simp only at hf h2
    rcases hbu : out.bridgeUpdate with _ | stc <;> rw [hbu] at h2 <;> simp only at h2 <;>
    (cases r
     case err e =>
       exact ⟨bg2, List.mem_cons_of_mem _ h2, rfl, rfl⟩
     case panicked =>
       exact ⟨bg2, List.mem_cons_of_mem _ h2, rfl, rfl⟩
     case ready =>
       rcases ih _ bg2 h2 with ⟨bg0, hbg0, he1, he2⟩
       exact ⟨bg0, List.mem_cons_of_mem _ hbg0, he1, he2⟩
     case notReady =>
       rcases List.mem_cons.1 h2 with h2 | h2
       · subst h2
         exact ⟨bg, List.mem_cons_self _ _, hf.1, hf.2⟩
       · rcases ih _ bg2 h2 with ⟨bg0, hbg0, he1, he2⟩
         exact ⟨bg0, List.mem_cons_of_mem _ hbg0, he1, he2⟩)

/-- Every background round surviving the notification drain stems from an
input round with the same inner voting round. -/
theorem drainNotifications_mem (past : List (BackgroundRound H ε)) (lf : H × Nat)
    (ns : List (H × Nat)) :
    ∀ bg2 ∈ (drainNotifications past lf ns).1, ∃ bg ∈ past, bg2.inner = bg.inner := by
  induction ns generalizing past lf with
  | nil =>
    intro bg2 h
    exact ⟨bg2, h, rfl⟩
  | cons n rest ih =>
    rcases n with ⟨f_hash, f_num⟩
    intro bg2 h2
    simp only [drainNotifications] at h2
    by_cases hlt : lf.2 < f_num
    · rw [if_pos hlt] at h2
      rcases ih (past.map fun bg => bg.update_finalized f_num) (f_hash, f_num) bg2 h2
        with ⟨bg1, hbg1, heq⟩
      rcases List.mem_map.1 hbg1 with ⟨bg0, hbg0, hup⟩
      refine ⟨bg0, hbg0, ?_⟩
      rw [heq, ← hup]
      rfl
    · rw [if_neg hlt] at h2
      rcases ih (past.map fun bg => bg.update_finalized f_num) lf bg2 h2
        with ⟨bg1, hbg1, heq⟩
      rcases List.mem_map.1 hbg1 with ⟨bg0, hbg0, hup⟩
      refine ⟨bg0, hbg0, ?_⟩
      rw [heq, ← hup]
      rfl

/-- No round in the voter carries a primary hint. -/
def noPrimary (v : Voter H ε) : Prop :=
  v.best_round.primary_block = none ∧
    ∀ bg ∈ v.past_rounds, bg.inner.primary_block = none

theorem prune_noPrimary [DecidableEq H] (env : Env H ε) (v : Voter H ε)
    (h : noPrimary v) : noPrimary (Voter.prune_background env v).1 := by
  rcases hdr : drainNotifications v.past_rounds v.last_finalized v.notifications
      with ⟨past1, lf1, evs1⟩
  have hdm := drainNotifications_mem v.past_rounds v.last_finalized v.notifications
  rw [hdr] at hdm
  simp only at hdm
  have hpm := pumpRounds_mem env past1 v.cells
  rcases hpr : pumpRounds env past1 v.cells with ⟨past2, cells2, ntfs2, evs2, r⟩
  rw [hpr] at hpm
  simp only at hpm
  simp only [Voter.prune_background, hdr, hpr]
  refine ⟨h.1, ?_⟩
  intro bg hbg
  rcases hpm bg hbg with ⟨bg1, hbg1, he1, -⟩
  rcases hdm bg1 hbg1 with ⟨bg0, hbg0, he0⟩
  rw [he1, he0]
  exact h.2 bg0 hbg0

theorem voterPoll_noPrimary [DecidableEq H] (env : Env H ε) (fuel : Nat)
    (v : Voter H ε) (h : noPrimary v) : noPrimary (Voter.poll env fuel v).1 := by
  induction fuel generalizing v with
  | zero =>
    have hp := prune_noPrimary env v h
    rcases hpr : Voter.prune_background env v with ⟨v1, evs, r0⟩
    rw [hpr] at hp
    simp only at hp
    rw [Voter.poll.eq_def]
    simp only [hpr]
    cases r0
    case err e => exact hp
    case panicked => exact hp
    all_goals (
      have hbrp := poll_primary env
        (lookupCell v1.cells (v1.best_round.votes.round_number - 1)) v1.best_round
      rcases hbr : VotingRound.poll env
          (lookupCell v1.cells (v1.best_round.votes.round_number - 1)) v1.best_round
          with ⟨br2, out, r⟩
      rw [hbr] at hbrp
      simp only at hbrp
      rw [hp.1] at hbrp
      simp only [hbr]
      rcases hbu : out.bridgeUpdate with _ | stc <;> simp only [hbu] <;>
      (cases r
       case err e => exact ⟨hbrp, hp.2⟩
       case panicked => exact ⟨hbrp, hp.2⟩
       case notReady => exact ⟨hbrp, hp.2⟩
       case ready =>
         rcases hst2 : br2.state with _ | st
         · exact ⟨hbrp, hp.2⟩
         · cases st
           case start p c => exact ⟨hbrp, hp.2⟩
           case prevoted c => exact ⟨hbrp, hp.2⟩
           case precommitted =>
             refine ⟨rfl, ?_⟩
             intro bg hbg
             rcases List.mem_append.1 hbg with hbg | hbg
             · exact hp.2 bg hbg
             · rw [List.mem_singleton.1 hbg]
               exact hbrp))
  | succ fuel ih =>
    have hp := prune_noPrimary env v h
    rcases hpr : Voter.prune_background env v with ⟨v1, evs, r0⟩
    rw [hpr] at hp
    simp only at hp
    rw [Voter.poll.eq_def]
    simp only [hpr]
    cases r0
    case err e => exact hp
    case panicked => exact hp
    all_goals (
      have hbrp := poll_primary env
        (lookupCell v1.cells (v1.best_round.votes.round_number - 1)) v1.best_round
      rcases hbr : VotingRound.poll env
          (lookupCell v1.cells (v1.best_round.votes.round_number - 1)) v1.best_round
          with ⟨br2, out, r⟩
      rw [hbr] at hbrp
      simp only at hbrp
      rw [hp.1] at hbrp
      simp only [hbr]
      rcases hbu : out.bridgeUpdate with _ | stc <;> simp only [hbu] <;>
      (cases r
       case err e => exact ⟨hbrp, hp.2⟩
       case panicked => exact ⟨hbrp, hp.2⟩
       case notReady => exact ⟨hbrp, hp.2⟩
       case ready =>
         rcases hst2 : br2.state with _ | st
         · exact ⟨hbrp, hp.2⟩
         · cases st
           case start p c => exact ⟨hbrp, hp.2⟩
           case prevoted c => exact ⟨hbrp, hp.2⟩
           case precommitted =>
             refine ih _ ⟨rfl, ?_⟩
             intro bg hbg
             rcases List.mem_append.1 hbg with hbg | hbg
             · exact hp.2 bg hbg
             · rw [List.mem_singleton.1 hbg]
               exact hbrp))

theorem voterRun_noPrimary [DecidableEq H] (env : Env H ε) (fuel n : Nat)
    (v : Voter H ε) (h : noPrimary v) : noPrimary (Voter.run env fuel n v).1 := by
  induction n generalizing v with
  | zero => exact h
  | succ n ih =>
    have h1 := voterPoll_noPrimary env fuel v h
    rcases hp1 : Voter.poll env fuel v with ⟨v1, evs, r⟩
    rw [hp1] at h1
    simp only at h1
    simp only [Voter.run, hp1]
    cases r
    case err e => exact h1
    case panicked => exact h1
    all_goals (
      have h2 := ih v1 h1
      rcases hr : Voter.run env fuel n v1 with ⟨v2, evs2⟩
      rw [hr] at h2
      simp only at h2
      simp only [hr]
      exact h2)

/-- C9: every round the engine ever owns — the best round and every
background round, across any run from `Voter.new` — has `primary_block =
none`; consequently `construct_prevote` anchors the prevote at the previous
round's estimate and depends only on `best_chain_containing` (the
primary-hint branches with their ancestry query are never executed). -/
theorem c9_primary_block_always_none [DecidableEq H] (env : Env H ε)
    (last_round : Nat) (st : RoundState H) (lf : H × Nat) (fuel n : Nat) :
    (Voter.run env fuel n (Voter.new env last_round st lf)).1.best_round.primary_block
        = none ∧
      (∀ bg ∈ (Voter.run env fuel n (Voter.new env last_round st lf)).1.past_rounds,
        bg.inner.primary_block = none) ∧
      (∀ (env2 : Env H ε) (lrs : RoundState H) (vr : VotingRound H ε) (lre : H × Nat),
        vr.primary_block = none → lrs.estimate = some lre →
          VotingRound.construct_prevote env2 lrs vr =
            some (Option.map
              (fun t => { target_hash := t.1, target_number := t.2 })
              (env2.best_chain_containing lre.1))) := by
  have hrun := voterRun_noPrimary env fuel n (Voter.new env last_round st lf)
    ⟨rfl, by intro bg hbg; simp [Voter.new] at hbg⟩
  refine ⟨hrun.1, hrun.2, ?_⟩
  intro env2 lrs vr lre hprim hest
  rcases hb : env2.best_chain_containing lre.1 with _ | t <;>
    simp [VotingRound.construct_prevote, VotingRound.findDescendentOf, hprim, hest, hb]

/-- Witness for C9 on the concrete solo-voter environment. -/
theorem c9_primary_block_always_none_witness :
    (Voter.run envSimple 1 2 (Voter.new envSimple 0 lrsSimple (0, 1))).1.best_round.primary_block
        = none ∧
      VotingRound.construct_prevote envSimple lrsSimple vrStart =
        some (Option.map
          (fun t => { target_hash := t.1, target_number := t.2 })
          (envSimple.best_chain_containing (5 : Nat))) :=
  ⟨(c9_primary_block_always_none envSimple 0 lrsSimple (0, 1) 1 2).1,
    (c9_primary_block_always_none envSimple 0 lrsSimple (0, 1) 1 2).2.2
      envSimple lrsSimple vrStart (5, 2) (by decide) (by decide)⟩

/-- The notification drain only raises stored finalized heights. -/
theorem drainNotifications_bound (past : List (BackgroundRound H ε)) (lf : H × Nat)
    (ns : List (H × Nat)) (k : Nat) (hk : ∀ bg ∈ past, k ≤ bg.finalized_number) :
    ∀ bg2 ∈ (drainNotifications past lf ns).1, k ≤ bg2.finalized_number := by
  induction ns generalizing past lf with
  | nil => exact hk
  | cons n rest ih =>
    rcases n with ⟨f_hash, f_num⟩
    intro bg2 h2
    simp only [drainNotifications] at h2
    have hk2 : ∀ bg ∈ past.map fun bg => bg.update_finalized f_num,
        k ≤ bg.finalized_number := by
      intro bg hbg
      rcases List.mem_map.1 hbg with ⟨bg0, hbg0, hup⟩
      rw [← hup]
      exact le_trans (hk bg0 hbg0) (le_max_left _ _)
    by_cases hlt : lf.2 < f_num
    · rw [if_pos hlt] at h2
      exact ih _ (f_hash, f_num) hk2 bg2 h2
    · rw [if_neg hlt] at h2
      exact ih _ lf hk2 bg2 h2

/-- Every height finalized during the drain is at most every surviving
background round's stored finalized height (each round was told about it). -/
theorem drainNotifications_heights_le (past : List (BackgroundRound H ε))
    (lf : H × Nat) (ns : List (H × Nat)) :
    ∀ n ∈ finalizeHeights (drainNotifications past lf ns).2.2,
      ∀ bg2 ∈ (drainNotifications past lf ns).1, n ≤ bg2.finalized_number := by
  induction ns generalizing past lf with
  | nil =>
    intro n hn
    simp [drainNotifications] at hn
  | cons p rest ih =>
    rcases p with ⟨f_hash, f_num⟩
    intro n hn bg2 h2
    simp only [drainNotifications] at hn h2
    by_cases hlt : lf.2 < f_num
    · rw [if_pos hlt] at hn h2
      have hn2 : n = f_num ∨
          n ∈ finalizeHeights (drainNotifications
            (past.map fun bg => bg.update_finalized f_num) (f_hash, f_num) rest).2.2 := by
        rcases hr : drainNotifications (past.map fun bg => bg.update_finalized f_num)
            (f_hash, f_num) rest with ⟨p2, lf2, evs⟩
        rw [hr] at hn
        simp only [finalizeHeights_cons_finalize] at hn
        rw [hr]
        simpa using hn
      rcases hn2 with rfl | hn2
      · refine drainNotifications_bound _ (f_hash, n) rest _ ?_ bg2 h2
        intro bg hbg
        rcases List.mem_map.1 hbg with ⟨bg0, hbg0, hup⟩
        rw [← hup]
        exact le_max_right _ _
      · exact ih _ (f_hash, f_num) n hn2 bg2 h2
    · rw [if_neg hlt] at hn h2
      exact ih _ lf n hn bg2 h2

/-- A background round that polls not-ready on the pump is not done. -/
theorem bg_poll_notReady_not_done [DecidableEq H] (env : Env H ε)
    (lrs : RoundState H) (bg : BackgroundRound H ε)
    (h : (BackgroundRound.poll env lrs bg).2.2 = .notReady) :
    (BackgroundRound.poll env lrs bg).1.is_done = false := by
  rcases hp : VotingRound.poll env lrs bg.inner with ⟨vr2, out, r⟩
  simp only [BackgroundRound.poll, hp] at h ⊢
  cases r with
  | err e => cases h
  | panicked => cases h
  | notReady =>
    rcases hd : BackgroundRound.is_done { bg with inner := vr2 } with _ | _
    · rfl
    · rw [hd] at h
      simp at h
  | ready =>
    rcases hd : BackgroundRound.is_done { bg with inner := vr2 } with _ | _
    · rfl
    · rw [hd] at h
      simp at h

/-- When the pump completes without error, every surviving round is not
done. -/
theorem pumpRounds_not_done [DecidableEq H] (env : Env H ε)
    (l : List (BackgroundRound H ε)) (cells : List (Nat × RoundState H))
    (hok : (pumpRounds env l cells).2.2.2.2 = .ok) :
    ∀ bg2 ∈ (pumpRounds env l cells).1, bg2.is_done = false := by
  induction l generalizing cells with
  | nil =>
    intro bg2 h
    simp [pumpRounds] at h
  | cons bg rest ih =>
    intro bg2 h2
    simp only [pumpRounds] at h2 hok
    rcases hp : BackgroundRound.poll env
        (lookupCell cells (bg.inner.votes.round_number - 1)) bg with ⟨bg1, out, r⟩
    have hnd := bg_poll_notReady_not_done env
      (lookupCell cells (bg.inner.votes.round_number - 1)) bg
    rw [hp] at h2 hok hnd
    simp only at h2 hok hnd
    rcases hbu : out.bridgeUpdate with _ | stc <;> rw [hbu] at h2 hok <;>
      simp only at h2 hok <;>
    (cases r
     case err e => cases hok
     case panicked => cases hok
     case ready => exact ih _ hok bg2 h2
     case notReady =>
       rcases List.mem_cons.1 h2 with h2 | h2
       · subst h2
         exact hnd rfl
       · exact ih _ hok bg2 h2)

/-- C7 (amended): when `prune_background` returns without error, no
background round whose estimate height is at or below any height finalized
during that call remains in the set — every survivor has no estimate or an
estimate height strictly above its stored finalized height, which is at
least every height finalized in this call.  (As frozen, the claim fails:
within one prune call `finalize_block` is invoked during the drain, before
the drop happens in the pump — see the counterexample.) -/
theorem c7_retirement_within_prune [DecidableEq H] (env : Env H ε) (v : Voter H ε)
    (hok : (Voter.prune_background env v).2.2 = .ok) :
    ∀ bg ∈ (Voter.prune_background env v).1.past_rounds,
      bg.is_done = false ∧
        ∀ n ∈ finalizeHeights (Voter.prune_background env v).2.1,
          n ≤ bg.finalized_number := by
  have hdh := drainNotifications_heights_le v.past_rounds v.last_finalized v.notifications
  rcases hdr : drainNotifications v.past_rounds v.last_finalized v.notifications
      with ⟨past1, lf1, evs1⟩
  rw [hdr] at hdh
  simp only at hdh
  have hpm := pumpRounds_mem env past1 v.cells
  have hpn := pumpRounds_no_finalize env past1 v.cells
  have hpd := pumpRounds_not_done env past1 v.cells
  rcases hpr : pumpRounds env past1 v.cells with ⟨past2, cells2, ntfs2, evs2, r⟩
  rw [hpr] at hpm hpn hpd
  simp only at hpm hpn hpd
  rw [Voter.prune_background] at hok ⊢
  simp only [hdr, hpr] at hok ⊢
  intro bg hbg
  refine ⟨hpd hok bg hbg, ?_⟩
  intro n hn
  rw [finalizeHeights_append, hpn, List.append_nil] at hn
  rcases hpm bg hbg with ⟨bg1, hbg1, -, he2⟩
  rw [he2]
  exact hdh n hn bg1 hbg1

/-- A concrete background round whose estimate height 5 keeps it alive. -/
def vrBgW : VotingRound Nat Unit :=
  { votes :=
      { round_number := 1, base := (0, 1),
        curState := { prevote_ghost := some (7, 5), estimate := some (7, 5),
                      finalized := none, completable := true },
        script := [] },
    incoming := [],
    outgoing := { inner := { accepted := [], sendScript := [], flushScript := [] },
                  buffer := [] },
    state := some State.precommitted,
    bridged_round_state := false,
    primary_block := none }

/-- A concrete voter with one live background round and one queued
finalization notification. -/
def voterW : Voter Nat Unit :=
  { best_round := vrStart,
    past_rounds := [⟨vrBgW, 0⟩],
    notifications := [(9, 2)],
    last_finalized := (0, 1),
    cells := [(0, lrsSimple)] }

theorem c7_retirement_within_prune_witness :
    (⟨vrBgW, 2⟩ : BackgroundRound Nat Unit).is_done = false ∧
      ∀ n ∈ finalizeHeights (Voter.prune_background envSimple voterW).2.1,
        n ≤ (⟨vrBgW, 2⟩ : BackgroundRound Nat Unit).finalized_number :=
  c7_retirement_within_prune envSimple voterW (by decide) ⟨vrBgW, 2⟩ (by decide)

/-- Decides whether the retirement claim as frozen is violated in an event
trace: some round enters the background set (its `completed` event at index
`k`), a later `finalize_block` call at index `i > k` has height exceeding
the round's estimate height (as recorded when it is eventually dropped), and
the round's `dropped` event comes only at an index `j > i` — i.e. the round
was NOT dropped before the next finalize_block invocation whose height
exceeds its estimate height. -/
def retirementViolated (evs : List (Event H)) : Bool :=
  evs.enum.any fun pk =>
    match pk.2 with
    | Event.completed r _ =>
      evs.enum.any fun pi =>
        match pi.2 with
        | Event.finalize _ n =>
          decide (pk.1 < pi.1) &&
            evs.enum.any fun pj =>
              match pj.2 with
              | Event.dropped r2 (some est) =>
                decide (r2 = r) && decide (pi.1 < pj.1) && decide (est.2 < n)
              | _ => false
        | _ => false
    | _ => false

/-- The tally snapshots scripted for the counterexample run. -/
def initStC : RoundState Nat :=
  { prevote_ghost := some (0, 1), estimate := some (0, 1), finalized := none,
    completable := true }

def st1C : RoundState Nat :=
  { prevote_ghost := some (2, 2), estimate := some (2, 2), finalized := none,
    completable := true }

def st2aC : RoundState Nat :=
  { prevote_ghost := some (3, 3), estimate := some (3, 3), finalized := none,
    completable := true }

def st2bC : RoundState Nat :=
  { prevote_ghost := some (3, 3), estimate := some (3, 3), finalized := some (3, 3),
    completable := true }

/-- Round 1 of the counterexample: one prevote arrives, both timers fire at
once, the sink accepts and flushes everything; the round completes with
estimate height 2 and never reports a finalization of its own. -/
def rd1C : RoundData Nat Unit :=
  { prevote_timer := [.ready], precommit_timer := [.ready],
    incoming := [.msg { message := .prevote { target_hash := 2, target_number := 2 },
                        signature := 0, id := 5 }],
    sendScript := [.ready, .ready], flushScript := [.ready],
    tallyScript := [.ok (st1C, none)] }

/-- Round 2 of the counterexample: completes with estimate height 3, and —
once already precommitted and rotated to the background — imports a vote
that sets `finalized = (3, 3)`, triggering the finalization notification. -/
def rd2C : RoundData Nat Unit :=
  { prevote_timer := [.ready], precommit_timer := [.ready],
    incoming :=
      [.pending,
       .msg { message := .prevote { target_hash := 3, target_number := 3 },
              signature := 0, id := 1 },
       .pending,
       .msg { message := .precommit { target_hash := 3, target_number := 3 },
              signature := 0, id := 2 }],
    sendScript := [.ready, .ready], flushScript := [.ready, .ready],
    tallyScript := [.ok (st2aC, none), .ok (st2bC, none)] }

/-- Round 3 and later: never fire, never receive anything. -/
def rdQuietC : RoundData Nat Unit :=
  { prevote_timer := [], precommit_timer := [], incoming := [],
    sendScript := [], flushScript := [], tallyScript := [] }

/-- The counterexample environment: a linear chain `0 → 2 → 3` (heights
1, 2, 3). -/
def envC7 : Env Nat Unit :=
  { ancestry := fun _ _ => .ok [],
    best_chain_containing := fun h =>
      if h = 0 then some (2, 2) else if h = 2 then some (3, 3) else none,
    round_data := fun n => if n = 1 then rd1C else if n = 2 then rd2C else rdQuietC }

/-- The counterexample voter, started from `Voter.new` at round 0 with
`last_finalized = (0, 1)`. -/
def voterC7 : Voter Nat Unit := Voter.new envC7 0 initStC (0, 1)

/-- Round 1 after completing both votes and being rotated to the
background: estimate height 2, bridged, both messages accepted by its
sink. -/
def vr1DoneC : VotingRound Nat Unit :=
  { votes := { round_number := 1, base := (0, 1), curState := st1C, script := [] },
    incoming := [],
    outgoing := { inner := { accepted := [Message.prevote ⟨2, 2⟩,
                                          Message.precommit ⟨2, 2⟩],
                             sendScript := [], flushScript := [] },
                  buffer := [] },
    state := some State.precommitted,
    bridged_round_state := true,
    primary_block := none }

/-- Round 2 after its first poll: prevote cast, waiting to precommit. -/
def vr2MidC : VotingRound Nat Unit :=
  { votes := { round_number := 2, base := (0, 1),
               curState := { prevote_ghost := none, estimate := none,
                             finalized := none, completable := false },
               script := [.ok (st2aC, none), .ok (st2bC, none)] },
    incoming := [.msg { message := .prevote { target_hash := 3, target_number := 3 },
                        signature := 0, id := 1 },
                 .pending,
                 .msg { message := .precommit { target_hash := 3, target_number := 3 },
                        signature := 0, id := 2 }],
    outgoing := { inner := { accepted := [Message.prevote ⟨3, 3⟩],
                             sendScript := [.ready], flushScript := [.ready] },
                  buffer := [] },
    state := some (State.prevoted [TimerR.ready]),
    bridged_round_state := false,
    primary_block := none }

/-- Round 2 precommitted, ready to rotate (bridge flag not yet set). -/
def vr2PreBC : VotingRound Nat Unit :=
  { votes := { round_number := 2, base := (0, 1), curState := st2aC,
               script := [.ok (st2bC, none)] },
    incoming := [.msg { message := .precommit { target_hash := 3, target_number := 3 },
                        signature := 0, id := 2 }],
    outgoing := { inner := { accepted := [Message.prevote ⟨3, 3⟩,
                                          Message.precommit ⟨3, 3⟩],
                             sendScript := [], flushScript := [] },
                  buffer := [] },
    state := some State.precommitted,
    bridged_round_state := false,
    primary_block := none }

/-- Round 2 precommitted and rotated, its finalizing vote still queued. -/
def vr2DoneAC : VotingRound Nat Unit :=
  { vr2PreBC with bridged_round_state := true }

/-- Round 2 after importing the vote that set `finalized = (3, 3)`. -/
def vr2DoneBC : VotingRound Nat Unit :=
  { votes := { round_number := 2, base := (0, 1), curState := st2bC, script := [] },
    incoming := [],
    outgoing := { inner := { accepted := [Message.prevote ⟨3, 3⟩,
                                          Message.precommit ⟨3, 3⟩],
                             sendScript := [], flushScript := [] },
                  buffer := [] },
    state := some State.precommitted,
    bridged_round_state := true,
    primary_block := none }

/-- Voter states after each of the five polls of the counterexample run. -/
def voterC7s1 : Voter Nat Unit :=
  { best_round := mkVotingRound 2 (0, 1) rd2C,
    past_rounds := [⟨vr1DoneC, 0⟩],
    notifications := [],
    last_finalized := (0, 1),
    cells := [(1, st1C), (0, initStC)] }

def voterC7s2 : Voter Nat Unit :=
  { best_round := vr2MidC,
    past_rounds := [⟨vr1DoneC, 0⟩],
    notifications := [],
    last_finalized := (0, 1),
    cells := [(1, st1C), (0, initStC)] }

def voterC7s3 : Voter Nat Unit :=
  { best_round := mkVotingRound 3 (0, 1) rdQuietC,
    past_rounds := [⟨vr1DoneC, 0⟩, ⟨vr2DoneAC, 0⟩],
    notifications := [],
    last_finalized := (0, 1),
    cells := [(2, st2aC), (1, st1C), (0, initStC)] }

def voterC7s4 : Voter Nat Unit :=
  { best_round := mkVotingRound 3 (0, 1) rdQuietC,
    past_rounds := [⟨vr1DoneC, 0⟩, ⟨vr2DoneBC, 0⟩],
    notifications := [(3, 3)],
    last_finalized := (0, 1),
    cells := [(2, st2bC), (2, st2aC), (1, st1C), (0, initStC)] }

def voterC7s5 : Voter Nat Unit :=
  { best_round := mkVotingRound 3 (0, 1) rdQuietC,
    past_rounds := [],
    notifications := [],
    last_finalized := (3, 3),
    cells := [(2, st2bC), (2, st2aC), (1, st1C), (0, initStC)] }

set_option maxHeartbeats 2000000 in
theorem voterC7_step1 :
    Voter.poll envC7 0 voterC7 =
      (voterC7s1, [Event.completed 1 st1C], .notReady) := by decide

set_option maxHeartbeats 2000000 in
/-- Pruning between polls: with nothing queued and no background round done,
`prune_background` leaves the voter unchanged. -/
theorem c7pr2 :
    Voter.prune_background envC7 voterC7s1 = (voterC7s1, [], .ok) := by decide

set_option maxHeartbeats 2000000 in
theorem c7pr3 :
    Voter.prune_background envC7 voterC7s2 = (voterC7s2, [], .ok) := by decide

set_option maxHeartbeats 2000000 in
/-- Pruning after round 2 rotated: the pump imports round 2's queued
precommit, raising its tally to `finalized = (3, 3)` and emitting the
finalization notification, but no round is done yet. -/
theorem c7pr4 :
    Voter.prune_background envC7 voterC7s3 = (voterC7s4, [], .ok) := by decide

set_option maxHeartbeats 2000000 in
/-- The decisive prune: the drain calls `finalize_block (3, 3)` while rounds
1 and 2 are still in the background set, and only then does the pump find
both done and drop them. -/
theorem c7pr5 :
    Voter.prune_background envC7 voterC7s4 =
      (voterC7s5,
        [Event.finalize 3 3, Event.dropped 1 (some (2, 2)),
         Event.dropped 2 (some (3, 3))], .ok) := by decide

set_option maxHeartbeats 2000000 in
/-- Best-round polls of the counterexample run, evaluated in isolation. -/
theorem c7bp2 :
    VotingRound.poll envC7
        (lookupCell voterC7s1.cells (voterC7s1.best_round.votes.round_number - 1))
        voterC7s1.best_round =
      (vr2MidC, { events := [], bridgeUpdate := none, notification := none },
        .notReady) := by decide

set_option maxHeartbeats 2000000 in
theorem c7bp3 :
    VotingRound.poll envC7
        (lookupCell voterC7s2.cells (voterC7s2.best_round.votes.round_number - 1))
        voterC7s2.best_round =
      (vr2PreBC, { events := [], bridgeUpdate := none, notification := none },
        .ready) := by decide

set_option maxHeartbeats 2000000 in
theorem c7bp4 :
    VotingRound.poll envC7
        (lookupCell voterC7s4.cells (voterC7s4.best_round.votes.round_number - 1))
        voterC7s4.best_round =
      (mkVotingRound 3 (0, 1) rdQuietC,
        { events := [], bridgeUpdate := none, notification := none },
        .notReady) := by decide

set_option maxHeartbeats 2000000 in
theorem c7bp5 :
    VotingRound.poll envC7
        (lookupCell voterC7s5.cells (voterC7s5.best_round.votes.round_number - 1))
        voterC7s5.best_round =
      (mkVotingRound 3 (0, 1) rdQuietC,
        { events := [], bridgeUpdate := none, notification := none },
        .notReady) := by decide

set_option maxHeartbeats 1000000 in
/-- Full voter polls 2 through 5, assembled from the prune and best-round
sub-results above. -/
theorem voterC7_step2 :
    Voter.poll envC7 0 voterC7s1 = (voterC7s2, [], .notReady) := by
  rw [Voter.poll.eq_def]
  simp only [c7pr2]
  simp only [c7bp2]
  decide

set_option maxHeartbeats 1000000 in
theorem voterC7_step3 :
    Voter.poll envC7 0 voterC7s2 =
      (voterC7s3, [Event.completed 2 st2aC], .notReady) := by
  rw [Voter.poll.eq_def]
  simp only [c7pr3]
  simp only [c7bp3]
  decide

set_option maxHeartbeats 1000000 in
theorem voterC7_step4 :
    Voter.poll envC7 0 voterC7s3 = (voterC7s4, [], .notReady) := by
  rw [Voter.poll.eq_def]
  simp only [c7pr4]
  simp only [c7bp4]
  decide

set_option maxHeartbeats 1000000 in
theorem voterC7_step5 :
    Voter.poll envC7 0 voterC7s4 =
      (voterC7s5,
        [Event.finalize 3 3, Event.dropped 1 (some (2, 2)),
         Event.dropped 2 (some (3, 3))], .notReady) := by
  rw [Voter.poll.eq_def]
  simp only [c7pr5]
  simp only [c7bp5]
  decide

/-- C7 counterexample: in a run of five voter polls from `Voter.new`,
round 1 is rotated to the background with estimate height 2 (its
`completed` event), then `finalize_block(3, 3)` — whose height 3 exceeds
2 — is invoked while round 1 is still in the background set, and round 1 is
dropped only afterwards, in the pump of the same prune step.  The claim as
frozen ("dropped before the next `finalize_block` invocation whose height
exceeds that round's estimate height") is therefore false on this input.
The full event trace is listed to make the ordering explicit. -/
theorem c7_retirement_counterexample :
    retirementViolated (Voter.run envC7 0 5 voterC7).2 = true ∧
      (Voter.run envC7 0 5 voterC7).2 =
        [Event.completed 1 st1C, Event.completed 2 st2aC,
         Event.finalize 3 3, Event.dropped 1 (some (2, 2)),
         Event.dropped 2 (some (3, 3))] := by
  have hrun : (Voter.run envC7 0 5 voterC7).2 =
      [Event.completed 1 st1C, Event.completed 2 st2aC,
       Event.finalize 3 3, Event.dropped 1 (some (2, 2)),
       Event.dropped 2 (some (3, 3))] := by
    simp only [Voter.run, voterC7_step1, voterC7_step2, voterC7_step3,
      voterC7_step4, voterC7_step5, List.append_nil, List.nil_append,
      List.cons_append]
  rw [hrun]
  exact ⟨by decide, rfl⟩

end FGV
